import Mathlib

/-!
# Download lifecycle of the video server (`src/server.js`)

A shallow embedding of the download handler (`POST /api/download`), of the
two callbacks it registers on the spawned `yt-dlp` process (`stdout 'data'`
and `'close'`), of the status handler
(`GET /api/download-status/:downloadId`), of the merge step of the search
handler (`GET /api/search`), and of the client's poll step
(`monitorDownloadProgress` in `src/script.js`).

Modelling conventions.

* A JavaScript object is a finite map from field names to values, written as a
  function `String → Option Val`; an absent field is `none`.  Object spread
  `{...o, k: v}` is `Obj.put`, and spreading `undefined` gives the empty object.
* The module-level `downloadStatus` map is threaded explicitly as a `Registry`.
* What the handlers read from the outside world is passed in as an argument:
  the result of `fs.readdirSync(DOWNLOAD_DIR)` (a list of file names), the
  reading of `Date.now()` (a natural number), the exit code delivered with
  `'close'`, the text of a `stdout` chunk, and the object returned by `spawn`.
* A JavaScript number is a double.  A finite one is `Val.num q` with `q` the
  rational it equals, and `Val.infinity` is `Infinity`.  `parseFloat` rounds
  the decimal value of the text it reads to the nearest double, ties to even
  (`toDouble`), as the engine of Node does.
* The provider's answers are parsed JSON (`Json`), with nested objects and
  arrays.  A computation that can throw a `TypeError` returns an `Option`
  whose `none` is the throw.
-/

namespace Youtube

/-! ## Values, objects and the registry -/

/-- JavaScript values that occur in job records and JSON bodies. -/
inductive Val where
  | null : Val
  | bool : Bool → Val
  | num : ℚ → Val
  | infinity : Val
  | str : String → Val
  | handle : Nat → Val
  deriving DecidableEq

/-- A JavaScript object: field name to value, `none` for an absent field. -/
abbrev Obj := String → Option Val

/-- The object literal `{}`. -/
def Obj.empty : Obj := fun _ => none

/-- The object `{...o, k: v}`. -/
def Obj.put (o : Obj) (k : String) (v : Val) : Obj :=
  fun k' => if k' = k then some v else o k'

/-- The rest object of the destructuring `const { k, ...rest } = o`. -/
def Obj.omit (o : Obj) (k : String) : Obj :=
  fun k' => if k' = k then none else o k'

/-- The fields contributed by `...x` when `x` is an object or `undefined`. -/
def spread : Option Obj → Obj
  | some o => o
  | none => Obj.empty

/-- The `downloadStatus` map: job id to job record. -/
abbrev Registry := String → Option Obj

/-- The map `new Map()`. -/
def Registry.empty : Registry := fun _ => none

/-- The map after `downloadStatus.set(id, o)`. -/
def Registry.set (reg : Registry) (id : String) (o : Obj) : Registry :=
  fun id' => if id' = id then some o else reg id'

/-- Field `k` of the record stored under `id`, `none` when there is no such
record or no such field. -/
def Registry.field (reg : Registry) (id k : String) : Option Val :=
  (reg id).bind (fun o => o k)

/-! ## Strings -/

/-- The method `s.includes(t)`. -/
def includes (s t : String) : Bool :=
  s.data.tails.any (fun u => t.data.isPrefixOf u)

/-- The method `s.endsWith(t)`. -/
def endsWith (s t : String) : Bool :=
  t.data.isSuffixOf s.data

/-- The filter predicate of lines 88-90 and 156-158:
`file.includes(videoId) && (file.endsWith('.mp4') || file.endsWith('.webm') || file.endsWith('.mkv'))`. -/
def isVideoFile (videoId file : String) : Bool :=
  includes file videoId &&
    (endsWith file ".mp4" || endsWith file ".webm" || endsWith file ".mkv")

/-! ## The progress pattern `/(\d+(?:\.\d+)?)%/` -/

/-- The class `\d` (without the `u` flag): the ASCII digits. -/
def isDigit (c : Char) : Bool := c.isDigit

/-- Greedy `\d*` after the digits `acc`, followed by the continuation `k`:
first try to take one more digit, and on failure of everything after it
backtrack and hand the digits taken so far to `k`. -/
def digitsStar {α : Type} (k : List Char → List Char → Option α) :
    List Char → List Char → Option α
  | acc, [] => k acc []
  | acc, c :: cs =>
    if isDigit c then
      (digitsStar k (acc ++ [c]) cs).orElse (fun _ => k acc (c :: cs))
    else k acc (c :: cs)

/-- The literal `%` that ends the pattern; `cap` is the text of group 1. -/
def matchPercent (cap : List Char) : List Char → Option (List Char)
  | c :: _ => if c = '%' then some cap else none
  | [] => none

/-- The group `(?:\.\d+)`, then `%`, after the integer digits `d1`. -/
def matchFraction (d1 : List Char) : List Char → Option (List Char)
  | c0 :: c :: cs =>
    if c0 = '.' ∧ isDigit c = true then
      digitsStar (fun d2 rest => matchPercent (d1 ++ '.' :: d2) rest) [c] cs
    else none
  | _ => none

/-- What follows `\d+`: the greedy optional group `(?:\.\d+)?` and `%`; the
group is tried first and skipped on failure. -/
def matchAfterInt (d1 rest : List Char) : Option (List Char) :=
  (matchFraction d1 rest).orElse (fun _ => matchPercent d1 rest)

/-- An attempt to match the whole pattern at the start of `s`; the result is
the text captured by group 1. -/
def matchHere : List Char → Option (List Char)
  | c :: cs => if isDigit c then digitsStar matchAfterInt [c] cs else none
  | [] => none

/-- The call `output.match(/(\d+(?:\.\d+)?)%/)`, reduced to group 1 of the
leftmost match: the pattern is tried at every start position in turn. -/
def progressMatch : List Char → Option (List Char)
  | [] => none
  | c :: cs =>
    match matchHere (c :: cs) with
    | some cap => some cap
    | none => progressMatch cs

/-- The number denoted by a run of decimal digits. -/
def digitsValue (ds : List Char) : Nat :=
  ds.foldl (fun n c => 10 * n + (c.toNat - '0'.toNat)) 0

/-- The decimal text at the start of `s`, as a pair `(m, k)` standing for
`m / 10 ^ k`: the digits before and after the point read as one number, and
the count of digits after the point. -/
def parseDecimal (s : List Char) : Nat × Nat :=
  match s.dropWhile isDigit with
  | c :: r =>
    if c = '.' then
      (digitsValue (s.takeWhile isDigit ++ r.takeWhile isDigit),
        (r.takeWhile isDigit).length)
    else (digitsValue (s.takeWhile isDigit), 0)
  | [] => (digitsValue (s.takeWhile isDigit), 0)

/-- The exact value of the decimal text at the start of `s`: the longest
prefix of the form digits, optionally `.` and digits, read as a decimal
number. -/
def decimalValue (s : List Char) : ℚ :=
  ((parseDecimal s).1 : ℚ) / (10 : ℚ) ^ (parseDecimal s).2

/-- The quotient `n / d` rounded to the nearest natural number, a tie going
to the even one. -/
def roundHalfEven (n d : Nat) : Nat :=
  if 2 * (n % d) < d then n / d
  else if d < 2 * (n % d) then n / d + 1
  else if (n / d) % 2 = 0 then n / d else n / d + 1

/-- The count of binary digits of `n`, added to `acc`; `fuel` bounds the
number of halvings. -/
def bitLengthAux : Nat → Nat → Nat → Nat
  | 0, _, acc => acc
  | fuel + 1, n, acc => if n = 0 then acc else bitLengthAux fuel (n / 2) (acc + 1)

/-- The count of binary digits of `n`: 0 for 0, and `e + 1` when
`2 ^ e ≤ n < 2 ^ (e + 1)`. -/
def bitLength (n : Nat) : Nat := bitLengthAux n n 0

/-- The exponent `e` with `2 ^ e ≤ n / d < 2 ^ (e + 1)`, for positive `n` and
`d`: the difference of the bit lengths, or one less. -/
def binade (n d : Nat) : Int :=
  if d * 2 ^ (bitLength n - bitLength d) ≤ n * 2 ^ (bitLength d - bitLength n) then
    (bitLength n : Int) - (bitLength d : Int)
  else (bitLength n : Int) - (bitLength d : Int) - 1

/-- The double nearest to `n / d` (for `d` positive), ties to even, as a
fraction `(a, b)` with `b` a power of two; `none` when the rounded value
reaches `2 ^ 1024`, where the double is `Infinity`.  The unit in the last
place is `2 ^ (e - 52)` in the binade `e`, and `2 ^ (-1074)` at the least for
the subnormal doubles; `up` and `down` are its exponent when positive and when
negative. -/
def doubleFrac (n d : Nat) : Option (Nat × Nat) :=
  if n = 0 then some (0, 1)
  else
    let up := (max (binade n d - 52) (-1074)).toNat
    let down := (-(max (binade n d - 52) (-1074))).toNat
    let mant := roundHalfEven (n * 2 ^ down) (d * 2 ^ up)
    if down = 0 ∧ 1025 ≤ bitLength (mant * 2 ^ up) then none
    else some (mant * 2 ^ up, 2 ^ down)

/-- The Number value of the non-negative rational `q`: the nearest double,
ties to even, and `Infinity` on overflow. -/
def toDouble (q : ℚ) : Val :=
  match doubleFrac q.num.toNat q.den with
  | some (a, b) => .num ((a : ℚ) / (b : ℚ))
  | none => .infinity

/-- The function `parseFloat` on unsigned decimal text, which is all group 1
can hold: the Number value of the longest prefix of the form digits,
optionally `.` and digits. -/
def parseFloat (s : List Char) : Val := toDouble (decimalValue s)

/-- The value of `progress` computed from a chunk at lines 139-141, `none`
when `progressMatch` is `null`. -/
def parsedPercent (output : String) : Option Val :=
  (progressMatch output.data).map parseFloat

/-- The comparison `a <= b` of two numbers. -/
def numLe : Val → Val → Prop
  | .num a, .num b => a ≤ b
  | .num _, .infinity => True
  | .infinity, .infinity => True
  | _, _ => False

/-! ## The download handler and the process callbacks -/

/-- The JSON body of `POST /api/download`, reduced to the two fields read. -/
structure DownloadBody where
  videoId : Option String
  title : Option String

/-- An HTTP answer: status code and the object handed to `res.json`. -/
structure Response where
  code : Nat
  body : Obj

/-- The variables `downloadId` and `videoId` captured by the callbacks that
one download request registers on its spawned process. -/
structure Handlers where
  downloadId : String
  videoId : String
  deriving DecidableEq

/-- The string `Date.now().toString()` for the clock reading `now`. -/
def newDownloadId (now : Nat) : String := toString now

/-- The write of lines 102-109 that creates the job record. -/
def createJob (downloadId videoId : String) (title : Option String)
    (reg : Registry) : Registry :=
  reg.set downloadId
    ((((((Obj.empty.put "videoId" (.str videoId)).put "title"
      (.str (match title with
        | some t => if t = "" then "Unknown" else t
        | none => "Unknown"))).put "status"
      (.str "starting")).put "progress" (.num 0)).put "error" .null).put
      "filePath" .null)

/-- The write of lines 126-130, after `spawn` returned the process `proc`. -/
def spawnUpdate (downloadId : String) (proc : Nat) (reg : Registry) : Registry :=
  reg.set downloadId
    (((spread (reg downloadId)).put "status" (.str "downloading")).put
      "process" (.handle proc))

/-- The write of lines 142-145. -/
def progressUpdate (downloadId : String) (progress : Val) (reg : Registry) :
    Registry :=
  reg.set downloadId ((spread (reg downloadId)).put "progress" progress)

/-- The write of lines 162-167. -/
def completedUpdate (downloadId filePath : String) (reg : Registry) : Registry :=
  reg.set downloadId
    ((((spread (reg downloadId)).put "status" (.str "completed")).put
      "progress" (.num 100)).put "filePath" (.str filePath))

/-- The writes of lines 170-174 and 177-181, which differ in the message. -/
def errorUpdate (downloadId message : String) (reg : Registry) : Registry :=
  reg.set downloadId
    (((spread (reg downloadId)).put "status" (.str "error")).put
      "error" (.str message))

/-- The text `${code}` for the argument of `'close'`: a number, or `null`
when the process was ended by a signal. -/
def exitCodeText : Option Nat → String
  | some n => toString n
  | none => "null"

/-- The handler of `POST /api/download` (lines 80-187).  `listing` is the
result of `fs.readdirSync(DOWNLOAD_DIR)`, `now` the reading of `Date.now()`
and `proc` the object returned by `spawn`.  The result is the answer, the
registry after the request, and the callbacks registered on the spawned
process (`none` when nothing was spawned). -/
def download (listing : List String) (now proc : Nat) (body : DownloadBody)
    (reg : Registry) : Response × Registry × Option Handlers :=
  match body.videoId with
  | none => (⟨400, Obj.empty.put "error" (.str "Video ID is required")⟩, reg, none)
  | some videoId =>
    if videoId = "" then
      (⟨400, Obj.empty.put "error" (.str "Video ID is required")⟩, reg, none)
    else
      match listing.filter (isVideoFile videoId) with
      | file :: _ =>
        (⟨200, ((Obj.empty.put "success" (.bool true)).put "videoPath"
            (.str ("/videos/" ++ file))).put "message"
            (.str "Video already downloaded")⟩, reg, none)
      | [] =>
        let downloadId := newDownloadId now
        (⟨200, ((Obj.empty.put "success" (.bool true)).put "downloadId"
            (.str downloadId)).put "message" (.str "Download started")⟩,
          spawnUpdate downloadId proc (createJob downloadId videoId body.title reg),
          some ⟨downloadId, videoId⟩)

/-- The callback `ytDlpProcess.stdout.on('data', ...)` (lines 134-147) for
the chunk text `output`. -/
def onStdoutData (h : Handlers) (output : String) (reg : Registry) : Registry :=
  match progressMatch output.data with
  | some cap => progressUpdate h.downloadId (parseFloat cap) reg
  | none => reg

/-- The callback `ytDlpProcess.on('close', ...)` (lines 153-184) for the exit
code `code`; `listing` is the result of `fs.readdirSync(DOWNLOAD_DIR)` at
that moment. -/
def onClose (h : Handlers) (listing : List String) (code : Option Nat)
    (reg : Registry) : Registry :=
  if code = some 0 then
    match listing.filter (isVideoFile h.videoId) with
    | file :: _ => completedUpdate h.downloadId ("/videos/" ++ file) reg
    | [] => errorUpdate h.downloadId "Downloaded file not found" reg
  else
    errorUpdate h.downloadId ("yt-dlp exited with code " ++ exitCodeText code) reg

/-- The handler of `GET /api/download-status/:downloadId` (lines 190-201). -/
def downloadStatus (downloadId : String) (reg : Registry) : Response :=
  match reg downloadId with
  | none => ⟨404, Obj.empty.put "error" (.str "Download not found")⟩
  | some status => ⟨200, status.omit "process"⟩

/-- The registry after the chunks `outputs` were delivered in order to the
`stdout` callback. -/
def feed (h : Handlers) (outputs : List String) (reg : Registry) : Registry :=
  outputs.foldl (fun r output => onStdoutData h output r) reg

/-! ## The progress pattern as the specification words it -/

/-- The specification's percentage text: `t` is digits, optionally `.` and
digits, followed by `%`, and `v` is the number the text before `%` denotes. -/
def IsPercentText (t : List Char) (v : ℚ) : Prop :=
  ∃ d1 : List Char, d1 ≠ [] ∧ (∀ c ∈ d1, isDigit c = true) ∧
    ((t = d1 ++ ['%'] ∧ v = (digitsValue d1 : ℚ)) ∨
      ∃ d2 : List Char, d2 ≠ [] ∧ (∀ c ∈ d2, isDigit c = true) ∧
        t = d1 ++ '.' :: d2 ++ ['%'] ∧
        v = (digitsValue d1 : ℚ) + (digitsValue d2 : ℚ) / (10 : ℚ) ^ d2.length)

/-- The specification's first percentage substring of `s` has value `v`: a
percentage text occurs in `s`, and none occurs at an earlier position. -/
def FirstPercent (s : List Char) (v : ℚ) : Prop :=
  ∃ pre t post : List Char, s = pre ++ t ++ post ∧ IsPercentText t v ∧
    ∀ (pre' t' post' : List Char) (v' : ℚ), s = pre' ++ t' ++ post' →
      IsPercentText t' v' → pre.length ≤ pre'.length

/-- The text `s` has no percentage substring. -/
def NoPercent (s : List Char) : Prop :=
  ∀ (pre t post : List Char) (v : ℚ), s = pre ++ t ++ post → ¬ IsPercentText t v

/-! ## Vocabulary of the lifecycle claims -/

/-- The number computed from the last chunk of `outputs` that has a
percentage, and 0 when no chunk has one. -/
def lastPercent (outputs : List String) : Val :=
  ((outputs.filterMap parsedPercent).getLast?).getD (.num 0)

/-- A field is set: it is present and its value is not `null`. -/
def IsSet (v : Option Val) : Prop := v ≠ none ∧ v ≠ some Val.null

/-- The record under `id` carries an error message only in status `'error'`
and a file path only in status `'completed'`. -/
def FieldsConsistent (reg : Registry) (id : String) : Prop :=
  (IsSet (reg.field id "error") → reg.field id "status" = some (.str "error")) ∧
  (IsSet (reg.field id "filePath") →
    reg.field id "status" = some (.str "completed"))

/-! ## A sample request -/

/-- A request body used in the worked examples. -/
def sampleBody : DownloadBody := ⟨some "dQw4w9WgXcQ", some "Song"⟩

/-- The callbacks the sample request registers at clock reading 1700000000000. -/
def sampleHandlers : Handlers := ⟨newDownloadId 1700000000000, "dQw4w9WgXcQ"⟩

/-- The registry the sample request leaves behind when it starts from the
empty registry and `spawn` returns process 7. -/
def sampleRegistry : Registry :=
  spawnUpdate (newDownloadId 1700000000000) 7
    (createJob (newDownloadId 1700000000000) "dQw4w9WgXcQ" (some "Song")
      Registry.empty)

/-- The answer to the sample request. -/
def sampleResponse : Response :=
  ⟨200, ((Obj.empty.put "success" (.bool true)).put "downloadId"
    (.str (newDownloadId 1700000000000))).put "message" (.str "Download started")⟩

/-! ## The client's poll step (`src/script.js`, `monitorDownloadProgress`) -/

/-- Whether a value counts as true in `v || w`. -/
def Val.truthy : Val → Bool
  | .null => false
  | .bool b => b
  | .num q => decide (q ≠ 0)
  | .infinity => true
  | .str s => decide (s ≠ "")
  | .handle _ => true

/-- What one run of `checkProgress` does to the page and to the timers.  The
texts it builds from numbers are kept as the value they are built from. -/
inductive ClientAction where
  /-- Lines 230-232: the bar gets the width `${progress}%` and the label reads
  `Downloading... ${Math.round(progress)}%`. -/
  | showProgress (progress : Val)
  /-- Lines 236-237: the bar is full and the label reads `Download complete!`. -/
  | showComplete
  /-- The call `setTimeout(checkProgress, delay)`: another poll. -/
  | schedulePoll (delay : Nat)
  /-- Lines 239-242: after `delay` the progress element is hidden and
  `playVideo(filePath, title)` runs. -/
  | schedulePlay (delay : Nat) (filePath : Option Val) (title : String)
  /-- Line 249: `console.error` of the error made by `new Error(thrown)`. -/
  | logError (thrown : Option Val)
  /-- Line 250: `showError` with the text `Download failed: ` followed by the
  message of `new Error(thrown)`. -/
  | showError (thrown : Option Val)
  /-- Line 251: the progress element is hidden. -/
  | hideProgress
  deriving DecidableEq

/-- One run of `checkProgress` (lines 224-252) on the object `status` parsed
from the body of the status response; `title` is the argument of
`monitorDownloadProgress`.  The `throw` of line 244 lands in the `catch` of
line 248.  A request that fails, or a body that is not an object, is not a
status response and is left out. -/
def pollStep (title : String) (status : Obj) : List ClientAction :=
  if status "status" = some (.str "downloading") then
    [.showProgress
        (match status "progress" with
          | some v => if v.truthy then v else .num 0
          | none => .num 0),
      .schedulePoll 1000]
  else if status "status" = some (.str "completed") then
    [.showComplete, .schedulePlay 500 (status "filePath") title]
  else if status "status" = some (.str "error") then
    [.logError (status "error"), .showError (status "error"), .hideProgress]
  else [.schedulePoll 1000]

/-! ## The search merge (`src/server.js`, lines 55-71) -/

/-- A value parsed from JSON, as the provider's answers are. -/
inductive Json where
  | null : Json
  | bool : Bool → Json
  | num : ℚ → Json
  | str : String → Json
  | arr : List Json → Json
  | obj : (String → Option Json) → Json

/-- The fields of a parsed object: name to value, `none` for an absent field. -/
abbrev JObj := String → Option Json

/-- The object literal `{}`. -/
def JObj.empty : JObj := fun _ => none

/-- The object `{...o, k: v}`. -/
def JObj.put (o : JObj) (k : String) (v : Json) : JObj :=
  fun k' => if k' = k then some v else o k'

/-- Whether a value counts as true in `v || w`. -/
def Json.truthy : Json → Bool
  | .null => false
  | .bool b => b
  | .num q => decide (q ≠ 0)
  | .str s => decide (s ≠ "")
  | .arr _ => true
  | .obj _ => true

/-- The read `v.k` on a value other than `null`, for the names the merge
reads (`id`, `videoId`, `items`, `statistics`, `contentDetails`): the field of
an object, and `undefined` on arrays, texts, numbers and booleans. -/
def Json.prop (v : Json) (k : String) : Option Json :=
  match v with
  | .obj o => o k
  | _ => none

/-- The read `x.k` where `x` may be `undefined` (`none`).  The outer `none`
stands for the `TypeError` thrown when `x` is `undefined` or `null`. -/
def member (x : Option Json) (k : String) : Option (Option Json) :=
  match x with
  | none => none
  | some .null => none
  | some v => some (v.prop k)

/-- The comparison `a === b` of two values taken from two different parsed
answers: by value on `undefined`, `null`, booleans, numbers and texts, and
false on objects and arrays, which are never the same object. -/
def strictEq : Option Json → Option Json → Bool
  | none, none => true
  | some .null, some .null => true
  | some (.bool a), some (.bool b) => a == b
  | some (.num a), some (.num b) => decide (a = b)
  | some (.str a), some (.str b) => a == b
  | _, _ => false

/-- The expression `item.id.videoId` of line 56, also read as
`video.id.videoId` inside the callback of line 63. -/
def videoIdOf (item : Json) : Option (Option Json) :=
  (member (some item) "id").bind (fun id => member id "videoId")

/-- The call `xs.find(item => item.id === video.id.videoId)` on an array. -/
def findDetails (video : Json) : List Json → Option (Option Json)
  | [] => some none
  | item :: rest =>
    (member (some item) "id").bind (fun id =>
      (videoIdOf video).bind (fun vid =>
        if strictEq id vid then some (some item) else findDetails video rest))

/-- The expression `detailsData.items?.find(...)` of line 63: `undefined` when
`items` is `undefined` or `null`, the search when it is an array, and a
`TypeError` otherwise, since no other parsed value has a `find` method. -/
def lookupDetails (detailsData video : Json) : Option (Option Json) :=
  (member (some detailsData) "items").bind (fun items =>
    match items with
    | none => some none
    | some .null => some none
    | some (.arr xs) => findDetails video xs
    | some _ => none)

/-- The expression `details?.k || {}` of lines 66 and 67. -/
def detailField (details : Option Json) (k : String) : Json :=
  match details with
  | none => .obj JObj.empty
  | some d =>
    match d.prop k with
    | some v => if v.truthy then v else .obj JObj.empty
    | none => .obj JObj.empty

/-- The callback of lines 62-69 for one search item.  A `video` that is not an
object has no `id`, so line 56 threw on it before the merge began; the model
fails on it here as well. -/
def mergeVideo (detailsData : Json) (video : Json) : Option Json :=
  match video with
  | .obj o =>
    (lookupDetails detailsData video).bind (fun details =>
      some (.obj (JObj.put (JObj.put o "statistics" (detailField details "statistics"))
        "contentDetails" (detailField details "contentDetails"))))
  | _ => none

/-- The call `searchData.items.map(...)` of line 62: the items are merged in
order and the first throw ends the run. -/
def mergeAll (detailsData : Json) : List Json → Option (List Json)
  | [] => some []
  | video :: rest =>
    (mergeVideo detailsData video).bind (fun r =>
      (mergeAll detailsData rest).map (fun rs => r :: rs))

/-- Lines 55-71 on the array `items` of the search answer and the parsed
detail answer `detailsData`.  The result `some results` stands for the answer
`res.json({ items: results })`; `none` stands for a thrown `TypeError`, which
the `catch` of line 73 answers with status 500. -/
def searchMerge (items : List Json) (detailsData : Json) : Option (List Json) :=
  if items.all (fun item => (videoIdOf item).isSome) then
    mergeAll detailsData items
  else none

/-! ## The search merge as the specification words it -/

/-- A search item: an object that has an `id` other than `null`. -/
def IsSearchItem (v : Json) : Prop :=
  ∃ (o : JObj) (id : Json), v = .obj o ∧ o "id" = some id ∧ id ≠ .null

/-- The detail answer `d` is well formed and `recs` are its records: `d` is
not `null`, and either it has no `items` (absent or `null`) and `recs` is
empty, or its `items` is the array `recs`, none of whose entries is `null`. -/
def WellFormedDetails (d : Json) (recs : List Json) : Prop :=
  d ≠ .null ∧
    (((d.prop "items" = none ∨ d.prop "items" = some .null) ∧ recs = []) ∨
      (d.prop "items" = some (.arr recs) ∧ ∀ r ∈ recs, r ≠ .null))

/-- The value `res` of field `k` in a result comes from the first record of
`recs` whose `id` equals `vid`: it is the value that record holds for `k`
when that value counts as true, as every object does; it is the empty object
when the record holds none that does, and when no record has the id. -/
def CarriesDetail (recs : List Json) (vid : Option Json) (k : String)
    (res : Option Json) : Prop :=
  (∀ (pre : List Json) (r : Json) (post : List Json),
    recs = pre ++ r :: post →
    (∀ x ∈ pre, strictEq (x.prop "id") vid = false) →
    strictEq (r.prop "id") vid = true →
    (∀ s, r.prop k = some s → s.truthy = true → res = some s) ∧
    ((∀ s, r.prop k = some s → s.truthy = false) →
      res = some (.obj JObj.empty))) ∧
  ((∀ x ∈ recs, strictEq (x.prop "id") vid = false) →
    res = some (.obj JObj.empty))

/-- The result `result` is the search item `video` merged with the detail
records `recs`: both are objects, the result has every field of the item
other than `statistics` and `contentDetails`, and these two come from the
first record whose `id` equals the item's `id.videoId`. -/
def MergedFrom (recs : List Json) (video result : Json) : Prop :=
  ∃ (o r : JObj) (id : Json),
    video = .obj o ∧ result = .obj r ∧ o "id" = some id ∧
    (∀ k, k ≠ "statistics" → k ≠ "contentDetails" → r k = o k) ∧
    CarriesDetail recs (id.prop "videoId") "statistics" (r "statistics") ∧
    CarriesDetail recs (id.prop "videoId") "contentDetails" (r "contentDetails")

/-! ## A sample search -/

/-- A search item with a snippet, for the video of the sample request. -/
def sampleItemA : Json :=
  .obj ((JObj.empty.put "id"
    (.obj (JObj.empty.put "videoId" (.str "dQw4w9WgXcQ")))).put "snippet"
    (.obj (JObj.empty.put "title" (.str "Song"))))

/-- A search item for a video the detail answer does not cover. -/
def sampleItemB : Json :=
  .obj (JObj.empty.put "id" (.obj (JObj.empty.put "videoId" (.str "9bZkp7q19f0"))))

/-- A search item that carries a `statistics` field of its own. -/
def sampleItemC : Json :=
  .obj ((JObj.empty.put "id"
    (.obj (JObj.empty.put "videoId" (.str "9bZkp7q19f0")))).put "statistics"
    (.obj (JObj.empty.put "viewCount" (.str "7"))))

/-- A detail record with statistics and without content details. -/
def sampleRecord : Json :=
  .obj ((JObj.empty.put "id" (.str "dQw4w9WgXcQ")).put "statistics"
    (.obj (JObj.empty.put "viewCount" (.str "10"))))

/-- A detail answer with the one sample record. -/
def sampleDetails : Json := .obj (JObj.empty.put "items" (.arr [sampleRecord]))

/-! ## Registry and record lemmas -/

theorem Registry.set_self (reg : Registry) (id : String) (o : Obj) :
    reg.set id o id = some o := by
  simp [Registry.set]

theorem Registry.set_other (reg : Registry) {id id' : String} (o : Obj)
    (hne : id' ≠ id) : reg.set id o id' = reg id' := by
  simp [Registry.set, hne]

theorem Registry.field_set_self (reg : Registry) (id k : String) (o : Obj) :
    (reg.set id o).field id k = o k := by
  simp [Registry.field, Registry.set]

theorem Registry.field_set_other (reg : Registry) {id id' : String} (k : String)
    (o : Obj) (hne : id' ≠ id) : (reg.set id o).field id' k = reg.field id' k := by
  simp [Registry.field, Registry.set, hne]

theorem spread_apply (reg : Registry) (id k : String) :
    spread (reg id) k = reg.field id k := by
  cases hr : reg id <;> simp [spread, Registry.field, hr, Obj.empty]

theorem Obj.put_self (o : Obj) (k : String) (v : Val) : o.put k v k = some v := by
  simp [Obj.put]

theorem Obj.put_other (o : Obj) {k k' : String} (v : Val) (hne : k' ≠ k) :
    o.put k v k' = o k' := by
  simp [Obj.put, hne]

/-- The filter of lines 88-90 keeps something exactly when the listing holds a
file that passes the predicate. -/
theorem filter_isVideoFile_ne_nil (videoId : String) (listing : List String) :
    listing.filter (isVideoFile videoId) ≠ [] ↔
      ∃ f ∈ listing, isVideoFile videoId f = true := by
  simp [List.filter_eq_nil_iff]

/-- The predicate of the filter, spelled out. -/
theorem isVideoFile_iff (videoId file : String) :
    isVideoFile videoId file = true ↔
      includes file videoId = true ∧
        (endsWith file ".mp4" = true ∨ endsWith file ".webm" = true ∨
          endsWith file ".mkv" = true) := by
  simp [isVideoFile, or_assoc]

theorem status_completedUpdate (id p : String) (reg : Registry) :
    (completedUpdate id p reg).field id "status" = some (.str "completed") := by
  simp [completedUpdate, Registry.field_set_self, Obj.put]

theorem status_errorUpdate (id m : String) (reg : Registry) :
    (errorUpdate id m reg).field id "status" = some (.str "error") := by
  simp [errorUpdate, Registry.field_set_self, Obj.put]

/-! ## The exit handler decides between completed and error -/

/-- C1. After the `'close'` callback ran, the status stored under its job id
is `'completed'` exactly when the exit code is 0 and the listing holds a file
whose name contains the video id and ends in `.mp4`, `.webm` or `.mkv`; in
every other case it is `'error'`.  This holds from every registry, so in
particular for a job that was in status `'downloading'`. -/
theorem close_status_completed_iff (h : Handlers) (listing : List String)
    (code : Option Nat) (reg : Registry) :
    ((onClose h listing code reg).field h.downloadId "status"
        = some (.str "completed") ↔
      code = some 0 ∧ ∃ f ∈ listing, includes f h.videoId = true ∧
        (endsWith f ".mp4" = true ∨ endsWith f ".webm" = true ∨
          endsWith f ".mkv" = true)) ∧
    (¬ (code = some 0 ∧ ∃ f ∈ listing, includes f h.videoId = true ∧
        (endsWith f ".mp4" = true ∨ endsWith f ".webm" = true ∨
          endsWith f ".mkv" = true)) →
      (onClose h listing code reg).field h.downloadId "status"
        = some (.str "error")) := by
  have hex : (∃ f ∈ listing, includes f h.videoId = true ∧
        (endsWith f ".mp4" = true ∨ endsWith f ".webm" = true ∨
          endsWith f ".mkv" = true)) ↔
      listing.filter (isVideoFile h.videoId) ≠ [] := by
    rw [filter_isVideoFile_ne_nil]
    simp only [isVideoFile_iff]
  rw [hex]
  unfold onClose
  by_cases hc : code = some 0
  · rw [if_pos hc]
    cases hf : listing.filter (isVideoFile h.videoId) with
    | nil => simp [hc, status_errorUpdate]
    | cons f fs => simp [hc, status_completedUpdate]
  · rw [if_neg hc]
    simp [hc, status_errorUpdate]

/-! ## The status handler -/

/-- C2. The status handler answers 404 with the body
`{error: 'Download not found'}` exactly when the id is not a key of the
registry; for a key it answers 200 with the stored record without its
`process` field, every other field being the stored one. -/
theorem downloadStatus_spec (downloadId : String) (reg : Registry) :
    ((downloadStatus downloadId reg).code = 404 ↔ reg downloadId = none) ∧
    (reg downloadId = none →
      (downloadStatus downloadId reg).body
        = Obj.empty.put "error" (.str "Download not found")) ∧
    (∀ status, reg downloadId = some status →
      (downloadStatus downloadId reg).code = 200 ∧
      (downloadStatus downloadId reg).body "process" = none ∧
      ∀ k, k ≠ "process" → (downloadStatus downloadId reg).body k = status k) := by
  unfold downloadStatus
  cases hr : reg downloadId with
  | none => simp
  | some status =>
    refine ⟨by simp, by simp, ?_⟩
    intro st hst
    cases hst
    refine ⟨rfl, by simp [Obj.omit], ?_⟩
    intro k hk
    simp [Obj.omit, hk]

/-! ## The pattern matcher against the specification's words -/

theorem isDigit_dot : isDigit '.' = false := by decide

theorem isDigit_percent : isDigit '%' = false := by decide

theorem ne_dot_of_isDigit {c : Char} (hc : isDigit c = true) : c ≠ '.' := by
  rintro rfl
  simp [isDigit_dot] at hc

theorem ne_percent_of_isDigit {c : Char} (hc : isDigit c = true) : c ≠ '%' := by
  rintro rfl
  simp [isDigit_percent] at hc

/-- Backtracking never helps when the continuation cannot start on a digit:
the greedy loop hands over the whole run of digits. -/
theorem digitsStar_greedy {α : Type} (k : List Char → List Char → Option α)
    (hk : ∀ acc c cs, isDigit c = true → k acc (c :: cs) = none)
    (acc s : List Char) :
    digitsStar k acc s = k (acc ++ s.takeWhile isDigit) (s.dropWhile isDigit) := by
  induction s generalizing acc with
  | nil => simp [digitsStar]
  | cons c cs ih =>
    by_cases hd : isDigit c = true
    · have hfail : k acc (c :: cs) = none := hk acc c cs hd
      rw [digitsStar, if_pos hd, ih, hfail]
      simp [List.takeWhile_cons_of_pos hd, List.dropWhile_cons_of_pos hd]
    · rw [digitsStar, if_neg hd]
      simp [List.takeWhile_cons_of_neg hd, List.dropWhile_cons_of_neg hd]

theorem matchPercent_digit (cap : List Char) {c : Char} (cs : List Char)
    (hc : isDigit c = true) : matchPercent cap (c :: cs) = none := by
  simp [matchPercent, ne_percent_of_isDigit hc]

theorem matchPercent_eq_some {cap rest out : List Char}
    (h : matchPercent cap rest = some out) :
    out = cap ∧ ∃ post, rest = '%' :: post := by
  cases rest with
  | nil => simp [matchPercent] at h
  | cons c cs =>
    by_cases hc : c = '%'
    · subst hc
      simp [matchPercent] at h
      exact ⟨h.symm, cs, rfl⟩
    · simp [matchPercent, hc] at h

theorem matchFraction_digit (d1 : List Char) {c : Char} (cs : List Char)
    (hc : isDigit c = true) : matchFraction d1 (c :: cs) = none := by
  cases cs with
  | nil => simp [matchFraction]
  | cons c2 cs2 => simp [matchFraction, ne_dot_of_isDigit hc]

theorem matchFraction_percent (d1 post : List Char) :
    matchFraction d1 ('%' :: post) = none := by
  cases post with
  | nil => simp [matchFraction]
  | cons c2 cs2 =>
    have hne : ('%' : Char) ≠ '.' := by decide
    simp [matchFraction, hne]

theorem matchAfterInt_digit (d1 : List Char) (c : Char) (cs : List Char)
    (hc : isDigit c = true) : matchAfterInt d1 (c :: cs) = none := by
  simp [matchAfterInt, matchFraction_digit d1 cs hc, matchPercent_digit d1 cs hc]

/-- The fraction group on text that starts with a point and a digit. -/
theorem matchFraction_dot (d1 : List Char) (c : Char) (cs : List Char)
    (hc : isDigit c = true) :
    matchFraction d1 ('.' :: c :: cs) =
      matchPercent (d1 ++ '.' :: c :: cs.takeWhile isDigit)
        (cs.dropWhile isDigit) := by
  rw [matchFraction, if_pos ⟨rfl, hc⟩,
    digitsStar_greedy _ (fun acc c cs h => matchPercent_digit _ cs h)]
  simp

theorem matchFraction_eq_some {d1 rest out : List Char}
    (h : matchFraction d1 rest = some out) :
    ∃ d2 post, d2 ≠ [] ∧ (∀ c ∈ d2, isDigit c = true) ∧
      rest = '.' :: d2 ++ '%' :: post ∧ out = d1 ++ '.' :: d2 := by
  match rest, h with
  | c0 :: c :: cs, h =>
    by_cases hc : c0 = '.' ∧ isDigit c = true
    · obtain ⟨rfl, hd⟩ := hc
      rw [matchFraction_dot d1 c cs hd] at h
      obtain ⟨hout, post, hpost⟩ := matchPercent_eq_some h
      refine ⟨c :: cs.takeWhile isDigit, post, by simp, ?_, ?_, hout⟩
      · intro x hx
        rcases List.mem_cons.1 hx with rfl | hx
        · exact hd
        · exact (List.mem_takeWhile_imp hx)
      · have := List.takeWhile_append_dropWhile isDigit cs
        rw [hpost] at this
        simp [this]
    · rw [matchFraction, if_neg hc] at h
      cases h

/-- The attempt at the start of a text that begins with a digit. -/
theorem matchHere_digit (c : Char) (cs : List Char) (hc : isDigit c = true) :
    matchHere (c :: cs) =
      matchAfterInt (c :: cs.takeWhile isDigit) (cs.dropWhile isDigit) := by
  rw [matchHere, if_pos hc, digitsStar_greedy _ matchAfterInt_digit]
  simp

theorem takeWhile_digits_append {d rest : List Char} {x : Char}
    (hd : ∀ c ∈ d, isDigit c = true) (hx : isDigit x = false) :
    (d ++ x :: rest).takeWhile isDigit = d := by
  rw [List.takeWhile_append_of_pos hd, List.takeWhile_cons_of_neg (by simp [hx])]
  simp

theorem dropWhile_digits_append {d rest : List Char} {x : Char}
    (hd : ∀ c ∈ d, isDigit c = true) (hx : isDigit x = false) :
    (d ++ x :: rest).dropWhile isDigit = x :: rest := by
  rw [List.dropWhile_append_of_pos hd, List.dropWhile_cons_of_neg (by simp [hx])]

/-- A successful attempt read digits, perhaps a point and digits, and `%`. -/
theorem matchHere_eq_some {s cap : List Char} (h : matchHere s = some cap) :
    ∃ d1 : List Char, d1 ≠ [] ∧ (∀ c ∈ d1, isDigit c = true) ∧
      ((∃ post, s = d1 ++ '%' :: post ∧ cap = d1) ∨
        ∃ d2 post, d2 ≠ [] ∧ (∀ c ∈ d2, isDigit c = true) ∧
          s = d1 ++ '.' :: d2 ++ '%' :: post ∧ cap = d1 ++ '.' :: d2) := by
  cases s with
  | nil => simp [matchHere] at h
  | cons c cs =>
    by_cases hc : isDigit c = true
    · rw [matchHere_digit c cs hc] at h
      have hsplit := List.takeWhile_append_dropWhile isDigit cs
      have hall : ∀ x ∈ c :: cs.takeWhile isDigit, isDigit x = true := by
        intro x hx
        rcases List.mem_cons.1 hx with rfl | hx
        · exact hc
        · exact List.mem_takeWhile_imp hx
      refine ⟨c :: cs.takeWhile isDigit, by simp, hall, ?_⟩
      unfold matchAfterInt at h
      cases hf : matchFraction (c :: cs.takeWhile isDigit) (cs.dropWhile isDigit) with
      | none =>
        rw [hf] at h
        obtain ⟨hout, post, hpost⟩ := matchPercent_eq_some h
        left
        refine ⟨post, ?_, hout⟩
        rw [hpost] at hsplit
        simp [hsplit]
      | some out =>
        rw [hf] at h
        obtain ⟨d2, post, hne, hd2, hrest, hout⟩ := matchFraction_eq_some hf
        right
        refine ⟨d2, post, hne, hd2, ?_, ?_⟩
        · rw [hrest] at hsplit
          conv_lhs => rw [← hsplit]
          simp
        · simp at h
          rw [← h, hout]
    · simp [matchHere, hc] at h

/-- An attempt at the start of digits followed by `%` captures the digits. -/
theorem matchHere_int {d1 : List Char} (post : List Char) (hne : d1 ≠ [])
    (hd1 : ∀ c ∈ d1, isDigit c = true) :
    matchHere (d1 ++ '%' :: post) = some d1 := by
  cases d1 with
  | nil => exact absurd rfl hne
  | cons c d =>
    have hc : isDigit c = true := hd1 c (List.mem_cons_self c d)
    have hd : ∀ x ∈ d, isDigit x = true := fun x hx => hd1 x (List.mem_cons_of_mem c hx)
    rw [List.cons_append, matchHere_digit c _ hc,
      takeWhile_digits_append hd isDigit_percent,
      dropWhile_digits_append hd isDigit_percent]
    simp [matchAfterInt, matchFraction_percent, matchPercent]

/-- An attempt at the start of digits, a point, digits and `%` captures the
text before `%`. -/
theorem matchHere_frac {d1 d2 : List Char} (post : List Char) (hne1 : d1 ≠ [])
    (hd1 : ∀ c ∈ d1, isDigit c = true) (hne2 : d2 ≠ [])
    (hd2 : ∀ c ∈ d2, isDigit c = true) :
    matchHere (d1 ++ '.' :: d2 ++ '%' :: post) = some (d1 ++ '.' :: d2) := by
  cases d1 with
  | nil => exact absurd rfl hne1
  | cons c d =>
    cases d2 with
    | nil => exact absurd rfl hne2
    | cons e d' =>
      have hc : isDigit c = true := hd1 c (List.mem_cons_self c d)
      have hd : ∀ x ∈ d, isDigit x = true :=
        fun x hx => hd1 x (List.mem_cons_of_mem c hx)
      have he : isDigit e = true := hd2 e (List.mem_cons_self e d')
      have hd' : ∀ x ∈ d', isDigit x = true :=
        fun x hx => hd2 x (List.mem_cons_of_mem e hx)
      have hshape : (c :: d) ++ '.' :: (e :: d') ++ '%' :: post
          = c :: (d ++ '.' :: e :: (d' ++ '%' :: post)) := by simp
      rw [hshape, matchHere_digit c _ hc, takeWhile_digits_append hd isDigit_dot,
        dropWhile_digits_append hd isDigit_dot]
      unfold matchAfterInt
      rw [matchFraction_dot _ e _ he, takeWhile_digits_append hd' isDigit_percent,
        dropWhile_digits_append hd' isDigit_percent]
      simp [matchPercent]

theorem digitsValue_foldl (ds : List Char) (n : Nat) :
    ds.foldl (fun n c => 10 * n + (c.toNat - '0'.toNat)) n
      = n * 10 ^ ds.length + digitsValue ds := by
  induction ds generalizing n with
  | nil => simp [digitsValue]
  | cons c cs ih =>
    rw [digitsValue, List.foldl_cons, ih, List.foldl_cons, ih (10 * 0 + _)]
    simp only [List.length_cons, pow_succ]
    ring

theorem digitsValue_append (d1 d2 : List Char) :
    digitsValue (d1 ++ d2) = digitsValue d1 * 10 ^ d2.length + digitsValue d2 := by
  rw [digitsValue, List.foldl_append, digitsValue_foldl]
  rfl

theorem decimalValue_int {d1 : List Char} (hd1 : ∀ c ∈ d1, isDigit c = true) :
    decimalValue d1 = (digitsValue d1 : ℚ) := by
  have h1 : d1.dropWhile isDigit = [] := List.dropWhile_eq_nil_iff.2 hd1
  have h2 : d1.takeWhile isDigit = d1 := List.takeWhile_eq_self_iff.2 hd1
  simp [decimalValue, parseDecimal, h1, h2]

theorem decimalValue_frac {d1 d2 : List Char} (hd1 : ∀ c ∈ d1, isDigit c = true)
    (hd2 : ∀ c ∈ d2, isDigit c = true) :
    decimalValue (d1 ++ '.' :: d2)
      = (digitsValue d1 : ℚ) + (digitsValue d2 : ℚ) / (10 : ℚ) ^ d2.length := by
  have h1 : (d1 ++ '.' :: d2).dropWhile isDigit = '.' :: d2 :=
    dropWhile_digits_append hd1 isDigit_dot
  have h2 : (d1 ++ '.' :: d2).takeWhile isDigit = d1 :=
    takeWhile_digits_append hd1 isDigit_dot
  have h3 : d2.takeWhile isDigit = d2 := List.takeWhile_eq_self_iff.2 hd2
  simp only [decimalValue, parseDecimal, h1, h2, h3, if_true, digitsValue_append]
  have hpow : ((10 : ℚ) ^ d2.length) ≠ 0 := pow_ne_zero _ (by norm_num)
  push_cast
  field_simp

/-- Soundness of one attempt: what it captures is a percentage text of the
specification at the start of the input, and `decimalValue` reads its value. -/
theorem matchHere_sound {s cap : List Char} (h : matchHere s = some cap) :
    ∃ t post, s = t ++ post ∧ IsPercentText t (decimalValue cap) := by
  obtain ⟨d1, hne, hd1, hcase⟩ := matchHere_eq_some h
  rcases hcase with ⟨post, hs, hcap⟩ | ⟨d2, post, hne2, hd2, hs, hcap⟩
  · refine ⟨d1 ++ ['%'], post, by simp [hs], d1, hne, hd1, Or.inl ⟨rfl, ?_⟩⟩
    rw [hcap, decimalValue_int hd1]
  · refine ⟨d1 ++ '.' :: d2 ++ ['%'], post, by simp [hs], d1, hne, hd1,
      Or.inr ⟨d2, hne2, hd2, rfl, ?_⟩⟩
    rw [hcap, decimalValue_frac hd1 hd2]

/-- Completeness of one attempt: on input that starts with a percentage text
of value `v` the attempt succeeds and `decimalValue` of its capture is `v`. -/
theorem matchHere_complete {t : List Char} {v : ℚ} (post : List Char)
    (h : IsPercentText t v) :
    ∃ cap, matchHere (t ++ post) = some cap ∧ decimalValue cap = v := by
  obtain ⟨d1, hne, hd1, hcase⟩ := h
  rcases hcase with ⟨ht, hv⟩ | ⟨d2, hne2, hd2, ht, hv⟩
  · refine ⟨d1, ?_, ?_⟩
    · rw [ht]
      simpa using matchHere_int post hne hd1
    · rw [hv, decimalValue_int hd1]
  · refine ⟨d1 ++ '.' :: d2, ?_, ?_⟩
    · rw [ht]
      simpa using matchHere_frac post hne hd1 hne2 hd2
    · rw [hv, decimalValue_frac hd1 hd2]

theorem IsPercentText.ne_nil {t : List Char} {v : ℚ} (h : IsPercentText t v) :
    t ≠ [] := by
  obtain ⟨d1, _, _, hcase⟩ := h
  rcases hcase with ⟨ht, _⟩ | ⟨d2, _, _, ht, _⟩ <;> simp [ht]

/-- When the scan finds nothing, the text has no percentage substring. -/
theorem progressMatch_none {s : List Char} (h : progressMatch s = none) :
    NoPercent s := by
  induction s with
  | nil =>
    intro pre t post v hs ht
    have ht0 : t = [] := by
      have hlen := congrArg List.length hs
      simp only [List.length_nil, List.length_append] at hlen
      exact List.length_eq_zero.1 (by omega)
    exact ht.ne_nil ht0
  | cons c cs ih =>
    rw [progressMatch] at h
    cases hm : matchHere (c :: cs) with
    | some cap => rw [hm] at h; cases h
    | none =>
      rw [hm] at h
      intro pre t post v hs ht
      cases pre with
      | nil =>
        obtain ⟨cap, hcap, _⟩ := matchHere_complete post ht
        rw [List.nil_append] at hs
        rw [← hs, hm] at hcap
        cases hcap
      | cons p pre' =>
        simp only [List.cons_append, List.cons.injEq] at hs
        exact ih h pre' t post v hs.2 ht

/-- What the scan finds is the specification's first percentage substring. -/
theorem progressMatch_some {s cap : List Char} (h : progressMatch s = some cap) :
    FirstPercent s (decimalValue cap) := by
  induction s with
  | nil => simp [progressMatch] at h
  | cons c cs ih =>
    rw [progressMatch] at h
    cases hm : matchHere (c :: cs) with
    | some cap' =>
      rw [hm] at h
      cases h
      obtain ⟨t, post, hs, ht⟩ := matchHere_sound hm
      exact ⟨[], t, post, by simpa using hs, ht, fun _ _ _ _ _ _ => Nat.zero_le _⟩
    | none =>
      rw [hm] at h
      obtain ⟨pre, t, post, hs, ht, hmin⟩ := ih h
      refine ⟨c :: pre, t, post, by simp [hs], ht, ?_⟩
      intro pre' t' post' v' hs' ht'
      cases pre' with
      | nil =>
        obtain ⟨cap', hcap', _⟩ := matchHere_complete post' ht'
        rw [List.nil_append] at hs'
        rw [← hs', hm] at hcap'
        cases hcap'
      | cons p pre'' =>
        simp only [List.cons_append, List.cons.injEq] at hs'
        have := hmin pre'' t' post' v' hs'.2 ht'
        simp only [List.length_cons]
        omega

/-- The first percentage substring has one value. -/
theorem FirstPercent.unique {s : List Char} {v v' : ℚ} (h : FirstPercent s v)
    (h' : FirstPercent s v') : v = v' := by
  obtain ⟨pre, t, post, hs, ht, hmin⟩ := h
  obtain ⟨pre', t', post', hs', ht', hmin'⟩ := h'
  have hlen : pre.length = pre'.length :=
    Nat.le_antisymm (hmin pre' t' post' v' hs' ht') (hmin' pre t post v hs ht)
  have heq : pre ++ (t ++ post) = pre' ++ (t' ++ post') := by
    rw [← List.append_assoc, ← List.append_assoc, ← hs, ← hs']
  obtain ⟨_, htail⟩ := List.append_inj heq hlen
  obtain ⟨cap, hcap, hv⟩ := matchHere_complete post ht
  obtain ⟨cap', hcap', hv'⟩ := matchHere_complete post' ht'
  rw [htail, hcap'] at hcap
  cases hcap
  rw [← hv, ← hv']

theorem parsedPercent_of_firstPercent {output : String} {v : ℚ}
    (h : FirstPercent output.data v) : parsedPercent output = some (toDouble v) := by
  unfold parsedPercent
  cases hm : progressMatch output.data with
  | none => exact absurd h (by
      rintro ⟨pre, t, post, hs, ht, _⟩
      exact progressMatch_none hm pre t post v hs ht)
  | some cap =>
    simp only [Option.map_some', Option.some.injEq, parseFloat]
    rw [(progressMatch_some hm).unique h]

theorem parsedPercent_of_noPercent {output : String}
    (h : NoPercent output.data) : parsedPercent output = none := by
  unfold parsedPercent
  cases hm : progressMatch output.data with
  | none => rfl
  | some cap =>
    obtain ⟨pre, t, post, hs, ht, _⟩ := progressMatch_some hm
    exact absurd ht (h pre t post _ hs)

/-- The `stdout` callback in terms of the number computed from the chunk. -/
theorem onStdoutData_eq (h : Handlers) (output : String) (reg : Registry) :
    onStdoutData h output reg =
      match parsedPercent output with
      | some v => progressUpdate h.downloadId v reg
      | none => reg := by
  unfold onStdoutData parsedPercent
  cases progressMatch output.data <;> rfl

theorem progress_progressUpdate (id : String) (v : Val) (reg : Registry) :
    (progressUpdate id v reg).field id "progress" = some v := by
  simp [progressUpdate, Registry.field_set_self, Obj.put]

/-! ## The Number value of a decimal -/

/-- Evaluation of `toDouble` at the fraction `n / d` in lowest terms. -/
theorem toDouble_of (q : ℚ) (n d : ℕ) (hd : 0 < d) (hc : Nat.Coprime n d)
    (hq : q = (n : ℚ) / (d : ℚ)) :
    toDouble q =
      match doubleFrac n d with
      | some (a, b) => .num ((a : ℚ) / (b : ℚ))
      | none => .infinity := by
  subst hq
  have h1 := Rat.num_div_eq_of_coprime (Int.ofNat_pos.2 hd)
    (show Nat.Coprime (n : ℤ).natAbs (d : ℤ).natAbs by simpa using hc)
  have h2 := Rat.den_div_eq_of_coprime (Int.ofNat_pos.2 hd)
    (show Nat.Coprime (n : ℤ).natAbs (d : ℤ).natAbs by simpa using hc)
  simp only [Int.cast_natCast] at h1 h2
  have h3 : ((n : ℚ) / (d : ℚ)).den = d := by exact_mod_cast h2
  simp only [toDouble, h1, h3, Int.toNat_ofNat]

/-- Evaluation of `toDouble` to a finite double `r`. -/
theorem toDouble_num (q : ℚ) (n d a b : ℕ) (r : ℚ) (hd : 0 < d)
    (hc : Nat.Coprime n d) (hq : q = (n : ℚ) / (d : ℚ))
    (hf : doubleFrac n d = some (a, b)) (hr : (a : ℚ) / (b : ℚ) = r) :
    toDouble q = .num r := by
  rw [toDouble_of q n d hd hc hq, hf, ← hr]

/-- The Number value of 42.5 is 42.5. -/
theorem toDouble_half : toDouble (85 / 2) = .num (85 / 2) :=
  toDouble_num _ 85 2 5981343255101440 140737488355328 _ (by decide) (by decide)
    (by norm_num) (by decide) (by norm_num)

/-- The text `9007199254740993` lies halfway between two doubles and is read
as the even one, 9007199254740992. -/
theorem parseFloat_tie :
    parseFloat "9007199254740993".data = .num 9007199254740992 := by
  have hv : decimalValue "9007199254740993".data
      = ((9007199254740993 : ℕ) : ℚ) / ((1 : ℕ) : ℚ) := by
    rw [decimalValue, show parseDecimal "9007199254740993".data
      = (9007199254740993, 0) from by decide]
    norm_num
  exact toDouble_num _ 9007199254740993 1 9007199254740992 1 _ (by decide)
    (by simp) hv (by decide) (by norm_num)

/-- The text `100.00000000000000001` is read as 100. -/
theorem parseFloat_above_hundred :
    parseFloat "100.00000000000000001".data = .num 100 := by
  have hv : decimalValue "100.00000000000000001".data
      = ((10000000000000000001 : ℕ) : ℚ) / ((100000000000000000 : ℕ) : ℚ) := by
    rw [decimalValue, show parseDecimal "100.00000000000000001".data
      = (10000000000000000001, 17) from by decide]
    norm_num
  exact toDouble_num _ 10000000000000000001 100000000000000000
    7036874417766400 70368744177664 _ (by decide) (by norm_num) hv (by decide)
    (by norm_num)

set_option exponentiation.threshold 512 in
/-- The Number value of `10 ^ 309` is `Infinity`. -/
theorem toDouble_overflow : toDouble ((10 : ℚ) ^ 309) = .infinity := by
  have hf : doubleFrac (10 ^ 309) 1 = none := by decide!
  rw [toDouble_of _ (10 ^ 309) 1 (by decide) (by simp) (by norm_num), hf]

/-- A Number value is never negative here. -/
theorem toDouble_nonneg (q : ℚ) : numLe (.num 0) (toDouble q) := by
  unfold toDouble
  cases doubleFrac q.num.toNat q.den with
  | none => trivial
  | some ab =>
    obtain ⟨a, b⟩ := ab
    exact div_nonneg (Nat.cast_nonneg a) (Nat.cast_nonneg b)

theorem numLe_self {p : Val} (h : numLe (.num 0) p) : numLe p p := by
  cases p <;> first | exact le_refl _ | trivial

/-! ## Progress extraction -/

/-- C3. For every chunk, when the chunk's first substring of the form digits,
optional `.` and digits, `%` has the decimal value `v`, the `stdout` callback
makes the write of lines 142-145 with the Number value of `v`, the double
nearest to it, so the job's progress becomes that number; when the chunk has
no such substring the registry stays as it was.  One of the two always
applies. -/
theorem onStdoutData_spec (h : Handlers) (output : String) (reg : Registry) :
    (∀ v, FirstPercent output.data v →
      onStdoutData h output reg = progressUpdate h.downloadId (toDouble v) reg ∧
      (onStdoutData h output reg).field h.downloadId "progress"
        = some (toDouble v)) ∧
    (NoPercent output.data → onStdoutData h output reg = reg) ∧
    ((∃ v, FirstPercent output.data v) ∨ NoPercent output.data) := by
  refine ⟨?_, ?_, ?_⟩
  · intro v hv
    have hp := parsedPercent_of_firstPercent hv
    have he : onStdoutData h output reg
        = progressUpdate h.downloadId (toDouble v) reg := by
      rw [onStdoutData_eq, hp]
    exact ⟨he, by rw [he, progress_progressUpdate]⟩
  · intro hn
    rw [onStdoutData_eq, parsedPercent_of_noPercent hn]
  · cases hm : progressMatch output.data with
    | none => exact Or.inr (progressMatch_none hm)
    | some cap => exact Or.inl ⟨_, progressMatch_some hm⟩

/-- The chunk of the specification's example: its first percentage substring
is `42.5%`, after one blank. -/
theorem firstPercent_example : FirstPercent " 42.5% of 10MiB".data (85 / 2) := by
  refine ⟨[' '], "42.5%".data, " of 10MiB".data, by decide, ?_, ?_⟩
  · refine ⟨['4', '2'], by simp, by decide, Or.inr ⟨['5'], by simp, by decide, by decide, ?_⟩⟩
    have h1 : digitsValue ['4', '2'] = 42 := by decide
    have h2 : digitsValue ['5'] = 5 := by decide
    rw [h1, h2]
    norm_num
  · intro pre' t' post' v' hs ht
    cases pre' with
    | cons p pre'' => simp
    | nil =>
      exfalso
      obtain ⟨d1, hne, hd1, hcase⟩ := ht
      cases d1 with
      | nil => exact hne rfl
      | cons c d =>
        have hc : isDigit c = true := hd1 c (List.mem_cons_self c d)
        have hhead : c = ' ' := by
          rcases hcase with ⟨ht, _⟩ | ⟨d2, _, _, ht, _⟩ <;>
          · rw [ht] at hs
            have hs' : " 42.5% of 10MiB".data = ' ' :: "42.5% of 10MiB".data := by decide
            rw [hs'] at hs
            simp only [List.nil_append, List.cons_append, List.cons.injEq] at hs
            exact hs.1.symm
        rw [hhead] at hc
        exact absurd hc (by decide)

/-- C3 at the chunk of the specification's example, and at a chunk without a
percentage. -/
theorem onStdoutData_spec_witness :
    FirstPercent " 42.5% of 10MiB".data (85 / 2) ∧
    (onStdoutData ⟨"1700000000000", "dQw4w9WgXcQ"⟩ " 42.5% of 10MiB"
        Registry.empty).field "1700000000000" "progress" = some (.num (85 / 2)) ∧
    NoPercent "[download] Destination: a.mp4".data ∧
    onStdoutData ⟨"1700000000000", "dQw4w9WgXcQ"⟩ "[download] Destination: a.mp4"
        Registry.empty = Registry.empty :=
  ⟨firstPercent_example,
    toDouble_half ▸ ((onStdoutData_spec ⟨"1700000000000", "dQw4w9WgXcQ"⟩
      " 42.5% of 10MiB" Registry.empty).1 _ firstPercent_example).2,
    progressMatch_none (by decide),
    (onStdoutData_spec ⟨"1700000000000", "dQw4w9WgXcQ"⟩
      "[download] Destination: a.mp4" Registry.empty).2.1
      (progressMatch_none (by decide))⟩

/-! ## Registry writes are merges -/

theorem spawnUpdate_other (id : String) (proc : Nat) (reg : Registry) {id' : String}
    (hne : id' ≠ id) : spawnUpdate id proc reg id' = reg id' :=
  Registry.set_other reg _ hne

theorem progressUpdate_other (id : String) (v : Val) (reg : Registry) {id' : String}
    (hne : id' ≠ id) : progressUpdate id v reg id' = reg id' :=
  Registry.set_other reg _ hne

theorem completedUpdate_other (id p : String) (reg : Registry) {id' : String}
    (hne : id' ≠ id) : completedUpdate id p reg id' = reg id' :=
  Registry.set_other reg _ hne

theorem errorUpdate_other (id m : String) (reg : Registry) {id' : String}
    (hne : id' ≠ id) : errorUpdate id m reg id' = reg id' :=
  Registry.set_other reg _ hne

theorem spawnUpdate_field (id : String) (proc : Nat) (reg : Registry) (k : String) :
    (spawnUpdate id proc reg).field id k =
      if k = "process" then some (.handle proc)
      else if k = "status" then some (.str "downloading") else reg.field id k := by
  simp [spawnUpdate, Registry.field_set_self, Obj.put, spread_apply]

theorem progressUpdate_field (id : String) (v : Val) (reg : Registry) (k : String) :
    (progressUpdate id v reg).field id k =
      if k = "progress" then some v else reg.field id k := by
  simp [progressUpdate, Registry.field_set_self, Obj.put, spread_apply]

theorem completedUpdate_field (id p : String) (reg : Registry) (k : String) :
    (completedUpdate id p reg).field id k =
      if k = "filePath" then some (.str p)
      else if k = "progress" then some (.num 100)
      else if k = "status" then some (.str "completed") else reg.field id k := by
  simp [completedUpdate, Registry.field_set_self, Obj.put, spread_apply]

theorem errorUpdate_field (id m : String) (reg : Registry) (k : String) :
    (errorUpdate id m reg).field id k =
      if k = "error" then some (.str m)
      else if k = "status" then some (.str "error") else reg.field id k := by
  simp [errorUpdate, Registry.field_set_self, Obj.put, spread_apply]

theorem createJob_field (id videoId : String) (title : Option String)
    (reg : Registry) (k : String) :
    (createJob id videoId title reg).field id k =
      if k = "filePath" then some .null
      else if k = "error" then some .null
      else if k = "progress" then some (.num 0)
      else if k = "status" then some (.str "starting")
      else if k = "title" then some (.str (match title with
        | some t => if t = "" then "Unknown" else t
        | none => "Unknown"))
      else if k = "videoId" then some (.str videoId) else none := by
  simp [createJob, Registry.field_set_self, Obj.put, Obj.empty]

/-- The `'close'` callback makes one of the two terminal writes. -/
theorem onClose_cases (h : Handlers) (listing : List String) (code : Option Nat)
    (reg : Registry) :
    (∃ file rest, code = some 0 ∧
        listing.filter (isVideoFile h.videoId) = file :: rest ∧
        onClose h listing code reg
          = completedUpdate h.downloadId ("/videos/" ++ file) reg) ∨
      ∃ m, onClose h listing code reg = errorUpdate h.downloadId m reg := by
  unfold onClose
  by_cases hc : code = some 0
  · rw [if_pos hc]
    cases hf : listing.filter (isVideoFile h.videoId) with
    | nil => exact Or.inr ⟨_, rfl⟩
    | cons f fs => exact Or.inl ⟨f, fs, hc, rfl, rfl⟩
  · rw [if_neg hc]
    exact Or.inr ⟨_, rfl⟩

/-- The `stdout` callback makes the progress write or none. -/
theorem onStdoutData_cases (h : Handlers) (output : String) (reg : Registry) :
    (parsedPercent output = none ∧ onStdoutData h output reg = reg) ∨
      ∃ v, parsedPercent output = some v ∧
        onStdoutData h output reg = progressUpdate h.downloadId v reg := by
  rw [onStdoutData_eq]
  cases parsedPercent output with
  | none => exact Or.inl ⟨rfl, rfl⟩
  | some v => exact Or.inr ⟨v, rfl, rfl⟩

/-- C8. Each write made after job creation is a merge against the current
record.  The spawn write sets `status` and `process`, the progress write sets
`progress`, the completion write sets `status`, `progress` and `filePath`,
the error write sets `status` and `error`; every other field of the record
keeps its value and the records under all other ids are untouched.  The
callbacks make no other write: the `stdout` callback makes the progress write
or none, and the `'close'` callback makes the completion or the error write. -/
theorem updates_are_merges (id : String) (reg : Registry) :
    (∀ proc,
      (spawnUpdate id proc reg).field id "status" = some (.str "downloading") ∧
      (spawnUpdate id proc reg).field id "process" = some (.handle proc) ∧
      (∀ k, k ≠ "status" → k ≠ "process" →
        (spawnUpdate id proc reg).field id k = reg.field id k) ∧
      ∀ id', id' ≠ id → spawnUpdate id proc reg id' = reg id') ∧
    (∀ v,
      (progressUpdate id v reg).field id "progress" = some v ∧
      (∀ k, k ≠ "progress" →
        (progressUpdate id v reg).field id k = reg.field id k) ∧
      ∀ id', id' ≠ id → progressUpdate id v reg id' = reg id') ∧
    (∀ p,
      (completedUpdate id p reg).field id "status" = some (.str "completed") ∧
      (completedUpdate id p reg).field id "progress" = some (.num 100) ∧
      (completedUpdate id p reg).field id "filePath" = some (.str p) ∧
      (∀ k, k ≠ "status" → k ≠ "progress" → k ≠ "filePath" →
        (completedUpdate id p reg).field id k = reg.field id k) ∧
      ∀ id', id' ≠ id → completedUpdate id p reg id' = reg id') ∧
    (∀ m,
      (errorUpdate id m reg).field id "status" = some (.str "error") ∧
      (errorUpdate id m reg).field id "error" = some (.str m) ∧
      (∀ k, k ≠ "status" → k ≠ "error" →
        (errorUpdate id m reg).field id k = reg.field id k) ∧
      ∀ id', id' ≠ id → errorUpdate id m reg id' = reg id') ∧
    (∀ videoId output,
      onStdoutData ⟨id, videoId⟩ output reg = reg ∨
      ∃ v, onStdoutData ⟨id, videoId⟩ output reg = progressUpdate id v reg) ∧
    (∀ videoId listing code,
      (∃ p, onClose ⟨id, videoId⟩ listing code reg = completedUpdate id p reg) ∨
      ∃ m, onClose ⟨id, videoId⟩ listing code reg = errorUpdate id m reg) := by
  refine ⟨?_, ?_, ?_, ?_, ?_, ?_⟩
  · intro proc
    refine ⟨by simp [spawnUpdate_field], by simp [spawnUpdate_field], ?_,
      fun id' hne => spawnUpdate_other id proc reg hne⟩
    intro k h1 h2
    simp [spawnUpdate_field, h1, h2]
  · intro v
    refine ⟨by simp [progressUpdate_field], ?_,
      fun id' hne => progressUpdate_other id v reg hne⟩
    intro k h1
    simp [progressUpdate_field, h1]
  · intro p
    refine ⟨by simp [completedUpdate_field], by simp [completedUpdate_field],
      by simp [completedUpdate_field], ?_,
      fun id' hne => completedUpdate_other id p reg hne⟩
    intro k h1 h2 h3
    simp [completedUpdate_field, h1, h2, h3]
  · intro m
    refine ⟨by simp [errorUpdate_field], by simp [errorUpdate_field], ?_,
      fun id' hne => errorUpdate_other id m reg hne⟩
    intro k h1 h2
    simp [errorUpdate_field, h1, h2]
  · intro videoId output
    rcases onStdoutData_cases ⟨id, videoId⟩ output reg with ⟨_, h⟩ | ⟨v, _, h⟩
    · exact Or.inl h
    · exact Or.inr ⟨v, h⟩
  · intro videoId listing code
    rcases onClose_cases ⟨id, videoId⟩ listing code reg with
      ⟨f, _, _, _, h⟩ | ⟨m, h⟩
    · exact Or.inl ⟨_, h⟩
    · exact Or.inr ⟨m, h⟩

/-! ## The download handler -/

/-- The first element of a filtered list. -/
theorem filter_eq_cons_of_first {α : Type} (p : α → Bool) {pre post : List α}
    {x : α} (hx : p x = true) (hpre : ∀ y ∈ pre, p y = false) :
    (pre ++ x :: post).filter p = x :: post.filter p := by
  have h0 : pre.filter p = [] := by
    rw [List.filter_eq_nil_iff]
    intro y hy
    simp [hpre y hy]
  rw [List.filter_append, h0, List.nil_append, List.filter_cons_of_pos hx]

/-- C6. A request with a non-empty video id, when the listing holds a file
whose name contains the id and ends in `.mp4`, `.webm` or `.mkv`, is answered
with success and the path `/videos/` followed by the first such file; the
registry is returned as it was and no process is spawned. -/
theorem download_cached (pre post : List String) (file videoId : String)
    (title : Option String) (now proc : Nat) (reg : Registry)
    (hid : videoId ≠ "")
    (hfile : includes file videoId = true ∧
      (endsWith file ".mp4" = true ∨ endsWith file ".webm" = true ∨
        endsWith file ".mkv" = true))
    (hfirst : ∀ g ∈ pre, ¬ (includes g videoId = true ∧
      (endsWith g ".mp4" = true ∨ endsWith g ".webm" = true ∨
        endsWith g ".mkv" = true))) :
    download (pre ++ file :: post) now proc ⟨some videoId, title⟩ reg =
      (⟨200, ((Obj.empty.put "success" (.bool true)).put "videoPath"
          (.str ("/videos/" ++ file))).put "message"
          (.str "Video already downloaded")⟩, reg, none) := by
  have hx : isVideoFile videoId file = true := (isVideoFile_iff _ _).2 hfile
  have hpre : ∀ g ∈ pre, isVideoFile videoId g = false := by
    intro g hg
    have := hfirst g hg
    rw [← isVideoFile_iff] at this
    simpa using this
  simp only [download, if_neg hid, filter_eq_cons_of_first _ hx hpre]

/-- C6 on a listing whose second file is the first match. -/
theorem download_cached_witness :
    ("dQw4w9WgXcQ" ≠ "" ∧
      includes "dQw4w9WgXcQ_Song.mp4" "dQw4w9WgXcQ" = true ∧
      ¬ includes "other_Clip.mp4" "dQw4w9WgXcQ" = true) ∧
    download (["other_Clip.mp4"] ++ "dQw4w9WgXcQ_Song.mp4" :: ["dQw4w9WgXcQ_Song.webm"])
        1700000000000 7 ⟨some "dQw4w9WgXcQ", some "Song"⟩ Registry.empty =
      (⟨200, ((Obj.empty.put "success" (.bool true)).put "videoPath"
          (.str ("/videos/" ++ "dQw4w9WgXcQ_Song.mp4"))).put "message"
          (.str "Video already downloaded")⟩, Registry.empty, none) :=
  ⟨⟨by decide, by decide, by decide⟩,
    download_cached ["other_Clip.mp4"] ["dQw4w9WgXcQ_Song.webm"]
      "dQw4w9WgXcQ_Song.mp4" "dQw4w9WgXcQ" (some "Song") 1700000000000 7
      Registry.empty (by decide) (by decide) (by decide)⟩

/-- A request that registered callbacks had a non-empty video id and found no
file for it; its job id is the clock text and its registry is the spawn write
on top of the creation write. -/
theorem download_eq_some {listing : List String} {now proc : Nat}
    {body : DownloadBody} {reg reg1 : Registry} {resp : Response} {h : Handlers}
    (hd : download listing now proc body reg = (resp, reg1, some h)) :
    body.videoId = some h.videoId ∧ h.videoId ≠ "" ∧
      listing.filter (isVideoFile h.videoId) = [] ∧
      h.downloadId = newDownloadId now ∧
      reg1 = spawnUpdate h.downloadId proc
        (createJob h.downloadId h.videoId body.title reg) := by
  unfold download at hd
  cases hv : body.videoId with
  | none => rw [hv] at hd; simp at hd
  | some videoId =>
    rw [hv] at hd
    by_cases he : videoId = ""
    · simp [he] at hd
    · simp only [if_neg he] at hd
      cases hf : listing.filter (isVideoFile videoId) with
      | cons f fs => rw [hf] at hd; simp at hd
      | nil =>
        rw [hf] at hd
        simp only [Prod.mk.injEq, Option.some.injEq] at hd
        obtain ⟨_, hreg, hh⟩ := hd
        subst hh
        exact ⟨rfl, he, hf, rfl, hreg.symm⟩

/-- The `stdout` callback leaves every field but `progress` alone. -/
theorem onStdoutData_field (h : Handlers) (output : String) (reg : Registry)
    {k : String} (hk : k ≠ "progress") :
    (onStdoutData h output reg).field h.downloadId k = reg.field h.downloadId k := by
  rcases onStdoutData_cases h output reg with ⟨_, he⟩ | ⟨v, _, he⟩
  · rw [he]
  · rw [he, progressUpdate_field, if_neg hk]

theorem feed_nil (h : Handlers) (reg : Registry) : feed h [] reg = reg := rfl

theorem feed_cons (h : Handlers) (o : String) (os : List String) (reg : Registry) :
    feed h (o :: os) reg = feed h os (onStdoutData h o reg) := rfl

theorem feed_append (h : Handlers) (os os' : List String) (reg : Registry) :
    feed h (os ++ os') reg = feed h os' (feed h os reg) := by
  simp [feed, List.foldl_append]

/-- A run of chunks leaves every field but `progress` alone. -/
theorem feed_field (h : Handlers) (outputs : List String) (reg : Registry)
    {k : String} (hk : k ≠ "progress") :
    (feed h outputs reg).field h.downloadId k = reg.field h.downloadId k := by
  induction outputs generalizing reg with
  | nil => rfl
  | cons o os ih => rw [feed_cons, ih, onStdoutData_field h o reg hk]

/-- The record a job-creating request leaves behind, field by field. -/
theorem download_field {listing : List String} {now proc : Nat}
    {body : DownloadBody} {reg reg1 : Registry} {resp : Response} {h : Handlers}
    (hd : download listing now proc body reg = (resp, reg1, some h)) :
    reg1.field h.downloadId "status" = some (.str "downloading") ∧
    reg1.field h.downloadId "progress" = some (.num 0) ∧
    reg1.field h.downloadId "error" = some .null ∧
    reg1.field h.downloadId "filePath" = some .null ∧
    reg1.field h.downloadId "videoId" = some (.str h.videoId) := by
  obtain ⟨_, _, _, _, hreg⟩ := download_eq_some hd
  rw [hreg]
  simp [spawnUpdate_field, createJob_field]

/-- The sample request creates a job. -/
theorem sample_download :
    download [] 1700000000000 7 sampleBody Registry.empty
      = (sampleResponse, sampleRegistry, some sampleHandlers) := by
  have hne : ("dQw4w9WgXcQ" : String) ≠ "" := by decide
  simp [download, sampleBody, sampleResponse, sampleRegistry, sampleHandlers, hne]

/-- C7. When a request created a job and the job's `'close'` callback left it
in status `'completed'` with file path `p`, a later request for the same video
id against the listing that callback scanned is answered with the path `p`;
it returns the registry it was given, whichever that is, and spawns nothing. -/
theorem download_again_cached {listing0 : List String} {now proc : Nat}
    {body : DownloadBody} {reg reg1 : Registry} {resp : Response} {h : Handlers}
    (hd : download listing0 now proc body reg = (resp, reg1, some h))
    (outputs listing : List String) (code : Option Nat) (p : String)
    (hs : (onClose h listing code (feed h outputs reg1)).field h.downloadId "status"
      = some (.str "completed"))
    (hp : (onClose h listing code (feed h outputs reg1)).field h.downloadId "filePath"
      = some (.str p))
    (now' proc' : Nat) (title' : Option String) (reg2 : Registry) :
    download listing now' proc' ⟨body.videoId, title'⟩ reg2 =
      (⟨200, ((Obj.empty.put "success" (.bool true)).put "videoPath"
          (.str p)).put "message" (.str "Video already downloaded")⟩, reg2, none) := by
  obtain ⟨hvid, hne, _, _, _⟩ := download_eq_some hd
  rcases onClose_cases h listing code (feed h outputs reg1) with
    ⟨file, rest, _, hf, he⟩ | ⟨m, he⟩
  · rw [he, completedUpdate_field] at hp
    simp only [if_true, Option.some.injEq, Val.str.injEq] at hp
    simp only [download, hvid, if_neg hne, hf, hp]
  · rw [he, errorUpdate_field] at hs
    simp at hs

theorem onClose_completed (h : Handlers) {listing : List String} {file : String}
    {rest : List String} (reg : Registry)
    (hf : listing.filter (isVideoFile h.videoId) = file :: rest) :
    onClose h listing (some 0) reg
      = completedUpdate h.downloadId ("/videos/" ++ file) reg := by
  simp [onClose, hf]

theorem sample_filter :
    ["dQw4w9WgXcQ_Song.mp4"].filter (isVideoFile sampleHandlers.videoId)
      = ["dQw4w9WgXcQ_Song.mp4"] := by decide

/-- C7 on the sample request: one progress chunk, exit code 0 with the file in
place, then a second request for the same video. -/
theorem download_again_cached_witness :
    (download [] 1700000000000 7 sampleBody Registry.empty
      = (sampleResponse, sampleRegistry, some sampleHandlers) ∧
    (onClose sampleHandlers ["dQw4w9WgXcQ_Song.mp4"] (some 0)
        (feed sampleHandlers ["[download]  42.5% of 10MiB"] sampleRegistry)).field
        sampleHandlers.downloadId "status" = some (.str "completed") ∧
    (onClose sampleHandlers ["dQw4w9WgXcQ_Song.mp4"] (some 0)
        (feed sampleHandlers ["[download]  42.5% of 10MiB"] sampleRegistry)).field
        sampleHandlers.downloadId "filePath"
        = some (.str ("/videos/" ++ "dQw4w9WgXcQ_Song.mp4"))) ∧
    download ["dQw4w9WgXcQ_Song.mp4"] 1700000005000 8
        ⟨sampleBody.videoId, some "Song again"⟩
        (onClose sampleHandlers ["dQw4w9WgXcQ_Song.mp4"] (some 0)
          (feed sampleHandlers ["[download]  42.5% of 10MiB"] sampleRegistry)) =
      (⟨200, ((Obj.empty.put "success" (.bool true)).put "videoPath"
          (.str ("/videos/" ++ "dQw4w9WgXcQ_Song.mp4"))).put "message"
          (.str "Video already downloaded")⟩,
        onClose sampleHandlers ["dQw4w9WgXcQ_Song.mp4"] (some 0)
          (feed sampleHandlers ["[download]  42.5% of 10MiB"] sampleRegistry),
        none) :=
  have hs : (onClose sampleHandlers ["dQw4w9WgXcQ_Song.mp4"] (some 0)
        (feed sampleHandlers ["[download]  42.5% of 10MiB"] sampleRegistry)).field
        sampleHandlers.downloadId "status" = some (.str "completed") := by
    rw [onClose_completed sampleHandlers _ sample_filter, completedUpdate_field]
    simp
  have hp : (onClose sampleHandlers ["dQw4w9WgXcQ_Song.mp4"] (some 0)
        (feed sampleHandlers ["[download]  42.5% of 10MiB"] sampleRegistry)).field
        sampleHandlers.downloadId "filePath"
        = some (.str ("/videos/" ++ "dQw4w9WgXcQ_Song.mp4")) := by
    rw [onClose_completed sampleHandlers _ sample_filter, completedUpdate_field]
    simp
  ⟨⟨sample_download, hs, hp⟩,
    download_again_cached sample_download ["[download]  42.5% of 10MiB"]
      ["dQw4w9WgXcQ_Song.mp4"] (some 0) _ hs hp 1700000005000 8
      (some "Song again") _⟩

/-! ## Error and file path against the status -/

/-- C5. Along the life of a job, from the creation write through the spawn
write and any run of chunks to the write of the `'close'` callback, the
record's `error` is set only in status `'error'` and its `filePath` only in
status `'completed'`. -/
theorem fields_consistent {listing : List String} {now proc : Nat}
    {body : DownloadBody} {reg reg1 : Registry} {resp : Response} {h : Handlers}
    (hd : download listing now proc body reg = (resp, reg1, some h))
    (outputs : List String) :
    FieldsConsistent (createJob h.downloadId h.videoId body.title reg) h.downloadId ∧
    FieldsConsistent (feed h outputs reg1) h.downloadId ∧
    ∀ (listing' : List String) (code : Option Nat),
      FieldsConsistent (onClose h listing' code (feed h outputs reg1)) h.downloadId := by
  obtain ⟨_, _, herr, hpath, _⟩ := download_field hd
  have herr' : (feed h outputs reg1).field h.downloadId "error" = some .null := by
    rw [feed_field h outputs reg1 (by decide), herr]
  have hpath' : (feed h outputs reg1).field h.downloadId "filePath" = some .null := by
    rw [feed_field h outputs reg1 (by decide), hpath]
  refine ⟨?_, ?_, ?_⟩
  · constructor <;> intro hset <;> simp [IsSet, createJob_field] at hset
  · constructor <;> intro hset
    · rw [herr'] at hset
      exact absurd rfl hset.2
    · rw [hpath'] at hset
      exact absurd rfl hset.2
  · intro listing' code
    rcases onClose_cases h listing' code (feed h outputs reg1) with
      ⟨file, rest, _, _, he⟩ | ⟨m, he⟩
    · rw [he]
      constructor <;> intro hset
      · rw [completedUpdate_field] at hset
        simp only [show ("error" : String) ≠ "filePath" from by decide,
          show ("error" : String) ≠ "progress" from by decide,
          show ("error" : String) ≠ "status" from by decide, if_false, herr'] at hset
        exact absurd rfl hset.2
      · simp [completedUpdate_field]
    · rw [he]
      constructor <;> intro hset
      · simp [errorUpdate_field]
      · rw [errorUpdate_field] at hset
        simp only [show ("filePath" : String) ≠ "error" from by decide,
          show ("filePath" : String) ≠ "status" from by decide, if_false, hpath'] at hset
        exact absurd rfl hset.2

/-- C5 on the sample request, with one chunk and a failing exit. -/
theorem fields_consistent_witness :
    download [] 1700000000000 7 sampleBody Registry.empty
      = (sampleResponse, sampleRegistry, some sampleHandlers) ∧
    FieldsConsistent (feed sampleHandlers ["[download]  42.5% of 10MiB"] sampleRegistry)
      sampleHandlers.downloadId ∧
    FieldsConsistent (onClose sampleHandlers [] (some 1)
      (feed sampleHandlers ["[download]  42.5% of 10MiB"] sampleRegistry))
      sampleHandlers.downloadId :=
  ⟨sample_download,
    (fields_consistent sample_download ["[download]  42.5% of 10MiB"]).2.1,
    (fields_consistent sample_download ["[download]  42.5% of 10MiB"]).2.2 [] (some 1)⟩

/-! ## Progress over a run of chunks -/

theorem parsedPercent_eval (output : String) (cap : List Char) (m k : Nat)
    (hm : progressMatch output.data = some cap) (hp : parseDecimal cap = (m, k)) :
    parsedPercent output = some (toDouble ((m : ℚ) / (10 : ℚ) ^ k)) := by
  simp [parsedPercent, hm, parseFloat, decimalValue, hp]

/-- Evaluation of the number computed from a chunk, to a finite double. -/
theorem parsedPercent_num (output : String) (cap : List Char) (m k n d a b : Nat)
    (r : ℚ) (hm : progressMatch output.data = some cap)
    (hp : parseDecimal cap = (m, k)) (hd : 0 < d) (hc : Nat.Coprime n d)
    (hq : (m : ℚ) / (10 : ℚ) ^ k = (n : ℚ) / (d : ℚ))
    (hf : doubleFrac n d = some (a, b)) (hr : (a : ℚ) / (b : ℚ) = r) :
    parsedPercent output = some (.num r) := by
  rw [parsedPercent_eval output cap m k hm hp, toDouble_num _ n d a b r hd hc hq hf hr]

theorem parsedPercent_55 : parsedPercent "[download]  55.0% of 10MiB" = some (.num 55) :=
  parsedPercent_num _ "55.0".data 550 1 55 1 7740561859543040 140737488355328 55
    (by decide) (by decide) (by decide) (by decide) (by norm_num) (by decide)
    (by norm_num)

theorem parsedPercent_10 : parsedPercent "[download]  10.0% of 10MiB" = some (.num 10) :=
  parsedPercent_num _ "10.0".data 100 1 10 1 5629499534213120 562949953421312 10
    (by decide) (by decide) (by decide) (by decide) (by norm_num) (by decide)
    (by norm_num)

theorem parsedPercent_42_5 :
    parsedPercent "[download]  42.5% of 10MiB" = some (.num (85 / 2)) :=
  parsedPercent_num _ "42.5".data 425 1 85 2 5981343255101440 140737488355328 _
    (by decide) (by decide) (by decide) (by decide) (by norm_num) (by decide)
    (by norm_num)

theorem parsedPercent_200 :
    parsedPercent "[download] Destination: dQw4w9WgXcQ_Give 200%.mp4"
      = some (.num 200) :=
  parsedPercent_num _ "200".data 200 0 200 1 7036874417766400 35184372088832 200
    (by decide) (by decide) (by decide) (by decide) (by norm_num) (by decide)
    (by norm_num)

theorem parsedPercent_nonneg {output : String} {v : Val}
    (h : parsedPercent output = some v) : numLe (.num 0) v := by
  unfold parsedPercent at h
  cases hm : progressMatch output.data with
  | none => rw [hm] at h; cases h
  | some cap =>
    rw [hm] at h
    simp only [Option.map_some', Option.some.injEq] at h
    rw [← h, parseFloat]
    exact toDouble_nonneg _

/-- The progress a chunk leaves behind: the number computed from it, or the
previous progress when there is none. -/
theorem onStdoutData_progress (h : Handlers) (output : String) (reg : Registry) :
    (onStdoutData h output reg).field h.downloadId "progress" =
      match parsedPercent output with
      | some v => some v
      | none => reg.field h.downloadId "progress" := by
  rw [onStdoutData_eq]
  cases parsedPercent output with
  | none => rfl
  | some v => simp [progressUpdate_field]

/-- After a run of chunks the progress is the initial one or a number computed
from one of the chunks. -/
theorem feed_progress (h : Handlers) (outputs : List String) (reg : Registry)
    (p0 : Val) (h0 : reg.field h.downloadId "progress" = some p0) :
    ∃ p, (feed h outputs reg).field h.downloadId "progress" = some p ∧
      (p = p0 ∨ p ∈ outputs.filterMap parsedPercent) := by
  induction outputs generalizing reg p0 with
  | nil => exact ⟨p0, h0, Or.inl rfl⟩
  | cons o os ih =>
    rw [feed_cons]
    cases hp : parsedPercent o with
    | none =>
      have hstep := onStdoutData_progress h o reg
      rw [hp] at hstep
      obtain ⟨p, hp1, hp2⟩ := ih (onStdoutData h o reg) p0 (by rw [hstep, h0])
      exact ⟨p, hp1, by simpa [List.filterMap_cons, hp] using hp2⟩
    | some v =>
      have hstep := onStdoutData_progress h o reg
      rw [hp] at hstep
      obtain ⟨p, hp1, hp2⟩ := ih (onStdoutData h o reg) v hstep
      refine ⟨p, hp1, Or.inr ?_⟩
      simp only [List.filterMap_cons, hp, List.mem_cons]
      exact hp2

/-- After a run of chunks the progress is the number computed from the last
chunk that has a percentage, or the initial progress when none has. -/
theorem feed_progress_last (h : Handlers) (outputs : List String) (reg : Registry)
    (p0 : Val) (h0 : reg.field h.downloadId "progress" = some p0) :
    (feed h outputs reg).field h.downloadId "progress"
      = some (((outputs.filterMap parsedPercent).getLast?).getD p0) := by
  induction outputs generalizing reg p0 with
  | nil => simpa using h0
  | cons o os ih =>
    rw [feed_cons]
    have hstep := onStdoutData_progress h o reg
    cases hp : parsedPercent o with
    | none =>
      rw [hp] at hstep
      rw [ih (onStdoutData h o reg) p0 (by rw [hstep, h0])]
      simp [List.filterMap_cons, hp]
    | some v =>
      rw [hp] at hstep
      rw [ih (onStdoutData h o reg) v hstep]
      simp [List.filterMap_cons, hp, List.getLast?_cons]

/-- C4, the failing case. The sample job reads progress 55 after one chunk
and progress 10 after the next, in status `'downloading'` both times: the
lower number is written as it is. -/
theorem progress_regresses :
    (feed sampleHandlers ["[download]  55.0% of 10MiB"] sampleRegistry).field
        sampleHandlers.downloadId "status" = some (.str "downloading") ∧
    (feed sampleHandlers ["[download]  55.0% of 10MiB"] sampleRegistry).field
        sampleHandlers.downloadId "progress" = some (.num 55) ∧
    (feed sampleHandlers ["[download]  55.0% of 10MiB", "[download]  10.0% of 10MiB"]
        sampleRegistry).field sampleHandlers.downloadId "status"
        = some (.str "downloading") ∧
    (feed sampleHandlers ["[download]  55.0% of 10MiB", "[download]  10.0% of 10MiB"]
        sampleRegistry).field sampleHandlers.downloadId "progress" = some (.num 10) ∧
    ¬ ((55 : ℚ) ≤ 10) := by
  have hst := (download_field sample_download).1
  refine ⟨?_, ?_, ?_, ?_, by norm_num⟩
  · rw [feed_field _ _ _ (by decide), hst]
  · rw [feed_cons, feed_nil, onStdoutData_progress, parsedPercent_55]
  · rw [feed_field _ _ _ (by decide), hst]
  · rw [feed_cons, feed_cons, feed_nil, onStdoutData_progress, parsedPercent_10]

/-- C4, amended. The `stdout` callback overwrites: after a chunk the progress
is the number computed from the chunk, or the previous progress when the
chunk has none.  Hence, when the numbers computed from the chunks of a run
are non-decreasing, the progress read after each chunk is at least the
progress read before it. -/
theorem progress_monotone_of_sorted {listing : List String} {now proc : Nat}
    {body : DownloadBody} {reg reg1 : Registry} {resp : Response} {h : Handlers}
    (hd : download listing now proc body reg = (resp, reg1, some h))
    (outputs : List String)
    (hsorted : (outputs.filterMap parsedPercent).Pairwise numLe)
    (pre : List String) (o : String) (suf : List String)
    (hsplit : outputs = pre ++ o :: suf) :
    ∃ p q : Val,
      (feed h pre reg1).field h.downloadId "progress" = some p ∧
      (feed h (pre ++ [o]) reg1).field h.downloadId "progress" = some q ∧
      (∀ v, parsedPercent o = some v → q = v) ∧
      (parsedPercent o = none → q = p) ∧
      numLe p q := by
  obtain ⟨_, h0, _, _, _⟩ := download_field hd
  obtain ⟨p, hp1, hp2⟩ := feed_progress h pre reg1 (.num 0) h0
  have hp0 : numLe (.num 0) p := by
    rcases hp2 with rfl | hmem
    · exact le_refl (0 : ℚ)
    · obtain ⟨x, _, hx⟩ := List.mem_filterMap.1 hmem
      exact parsedPercent_nonneg hx
  have hstep := onStdoutData_progress h o (feed h pre reg1)
  rw [feed_append, feed_cons, feed_nil]
  cases hv : parsedPercent o with
  | none =>
    rw [hv] at hstep
    exact ⟨p, p, hp1, by rw [hstep, hp1], by simp, fun _ => rfl, numLe_self hp0⟩
  | some v =>
    rw [hv] at hstep
    refine ⟨p, v, hp1, hstep, fun w hw => by cases hw; rfl, by simp, ?_⟩
    rcases hp2 with rfl | hmem
    · exact parsedPercent_nonneg hv
    · rw [hsplit, List.filterMap_append, List.filterMap_cons, hv,
        List.pairwise_append] at hsorted
      exact hsorted.2.2 p hmem v (List.mem_cons_self _ _)

/-- C4, amended, on the sample job with the chunks `10.0%` then `55.0%`. -/
theorem progress_monotone_of_sorted_witness :
    (["[download]  10.0% of 10MiB", "[download]  55.0% of 10MiB"].filterMap
        parsedPercent).Pairwise numLe ∧
    ∃ p q : Val,
      (feed sampleHandlers ["[download]  10.0% of 10MiB"] sampleRegistry).field
        sampleHandlers.downloadId "progress" = some p ∧
      (feed sampleHandlers (["[download]  10.0% of 10MiB"] ++ ["[download]  55.0% of 10MiB"])
        sampleRegistry).field sampleHandlers.downloadId "progress" = some q ∧
      (∀ v, parsedPercent "[download]  55.0% of 10MiB" = some v → q = v) ∧
      (parsedPercent "[download]  55.0% of 10MiB" = none → q = p) ∧
      numLe p q :=
  have hsorted : (["[download]  10.0% of 10MiB", "[download]  55.0% of 10MiB"].filterMap
      parsedPercent).Pairwise numLe := by
    simp only [List.filterMap_cons, parsedPercent_10, parsedPercent_55,
      List.filterMap_nil]
    simp only [List.pairwise_cons, List.mem_singleton, forall_eq, List.not_mem_nil,
      false_implies, implies_true, List.Pairwise.nil, and_true]
    show (10 : ℚ) ≤ 55
    norm_num
  ⟨hsorted,
    progress_monotone_of_sorted sample_download
      ["[download]  10.0% of 10MiB", "[download]  55.0% of 10MiB"] hsorted
      ["[download]  10.0% of 10MiB"] "[download]  55.0% of 10MiB" [] rfl⟩

/-- C9, the failing case. The line that announces the destination of a video
titled `Give 200%` carries the text `200%`, and the sample job's progress
becomes 200. -/
theorem progress_exceeds_hundred :
    (onStdoutData sampleHandlers "[download] Destination: dQw4w9WgXcQ_Give 200%.mp4"
        sampleRegistry).field sampleHandlers.downloadId "progress"
      = some (.num 200) ∧
    ¬ ((200 : ℚ) ≤ 100) := by
  refine ⟨?_, by norm_num⟩
  rw [onStdoutData_progress, parsedPercent_200]

theorem lastPercent_nonneg (outputs : List String) :
    numLe (.num 0) (lastPercent outputs) := by
  unfold lastPercent
  cases hl : (outputs.filterMap parsedPercent).getLast? with
  | none => exact le_refl (0 : ℚ)
  | some v =>
    obtain ⟨x, _, hx⟩ := List.mem_filterMap.1 (List.mem_of_getLast?_eq_some hl)
    exact parsedPercent_nonneg hx

theorem lastPercent_le_hundred (outputs : List String)
    (hall : ∀ o ∈ outputs, ∀ v, parsedPercent o = some v → numLe v (.num 100)) :
    numLe (lastPercent outputs) (.num 100) := by
  unfold lastPercent
  cases hl : (outputs.filterMap parsedPercent).getLast? with
  | none =>
    show (0 : ℚ) ≤ 100
    norm_num
  | some v =>
    obtain ⟨x, hx, hv⟩ := List.mem_filterMap.1 (List.mem_of_getLast?_eq_some hl)
    exact hall x hx v hv

/-- C9, amended. The progress of a job is a number that is never negative
and that the code bounds nowhere from above.  It is 0 in the record written at
creation; after a run of chunks it is the number computed from the last chunk
that has a percentage, and still 0 when none has; an exit that marks the job
`'completed'` sets it to 100 and an exit that marks it `'error'` leaves it as
it was.  It is at most 100 when the number computed from every chunk is. -/
theorem progress_bounds {listing : List String} {now proc : Nat}
    {body : DownloadBody} {reg reg1 : Registry} {resp : Response} {h : Handlers}
    (hd : download listing now proc body reg = (resp, reg1, some h))
    (outputs : List String) :
    (createJob h.downloadId h.videoId body.title reg).field h.downloadId "progress"
      = some (.num 0) ∧
    (feed h outputs reg1).field h.downloadId "progress"
      = some (lastPercent outputs) ∧
    numLe (.num 0) (lastPercent outputs) ∧
    ((∀ o ∈ outputs, ∀ v, parsedPercent o = some v → numLe v (.num 100)) →
      numLe (lastPercent outputs) (.num 100)) ∧
    ∀ (listing' : List String) (code : Option Nat),
      ((onClose h listing' code (feed h outputs reg1)).field h.downloadId "status"
          = some (.str "completed") ∧
        (onClose h listing' code (feed h outputs reg1)).field h.downloadId "progress"
          = some (.num 100)) ∨
      ((onClose h listing' code (feed h outputs reg1)).field h.downloadId "status"
          = some (.str "error") ∧
        (onClose h listing' code (feed h outputs reg1)).field h.downloadId "progress"
          = some (lastPercent outputs)) := by
  obtain ⟨_, h0, _, _, _⟩ := download_field hd
  have hfeed : (feed h outputs reg1).field h.downloadId "progress"
      = some (lastPercent outputs) := feed_progress_last h outputs reg1 (.num 0) h0
  refine ⟨by simp [createJob_field], hfeed, lastPercent_nonneg outputs,
    lastPercent_le_hundred outputs, ?_⟩
  intro listing' code
  rcases onClose_cases h listing' code (feed h outputs reg1) with
    ⟨file, rest, _, _, he⟩ | ⟨m, he⟩
  · left
    rw [he]
    constructor <;> simp [completedUpdate_field]
  · right
    rw [he]
    constructor
    · simp [errorUpdate_field]
    · rw [errorUpdate_field]
      simp [hfeed]

/-- C9, amended, on the sample job with one chunk that reads `42.5%`: the
progress is 42.5 and lies between 0 and 100. -/
theorem progress_bounds_witness :
    download [] 1700000000000 7 sampleBody Registry.empty
      = (sampleResponse, sampleRegistry, some sampleHandlers) ∧
    lastPercent ["[download]  42.5% of 10MiB"] = .num (85 / 2) ∧
    (feed sampleHandlers ["[download]  42.5% of 10MiB"] sampleRegistry).field
      sampleHandlers.downloadId "progress"
      = some (lastPercent ["[download]  42.5% of 10MiB"]) ∧
    numLe (.num 0) (lastPercent ["[download]  42.5% of 10MiB"]) ∧
    numLe (lastPercent ["[download]  42.5% of 10MiB"]) (.num 100) := by
  have hlast : lastPercent ["[download]  42.5% of 10MiB"] = .num (85 / 2) := by
    simp [lastPercent, List.filterMap_cons, parsedPercent_42_5]
  obtain ⟨_, hp, h0, h100, _⟩ :=
    progress_bounds sample_download ["[download]  42.5% of 10MiB"]
  refine ⟨sample_download, hlast, hp, h0, h100 ?_⟩
  intro o ho v hv
  rw [List.mem_singleton] at ho
  subst ho
  rw [parsedPercent_42_5] at hv
  cases hv
  show (85 / 2 : ℚ) ≤ 100
  norm_num

/-! ## Job ids and the growth of the registry -/

/-- C10, the failing case. A second job-creating request that arrives at the
clock reading of the sample request is given the id of the sample job, which
is a key of the registry already, and the record stored under it is replaced:
its video id changes. -/
theorem job_id_collision :
    sampleRegistry (newDownloadId 1700000000000) ≠ none ∧
    (download [] 1700000000000 8 ⟨some "9bZkp7q19f0", some "Other"⟩
        sampleRegistry).2.2 = some ⟨newDownloadId 1700000000000, "9bZkp7q19f0"⟩ ∧
    sampleRegistry.field (newDownloadId 1700000000000) "videoId"
      = some (.str "dQw4w9WgXcQ") ∧
    (download [] 1700000000000 8 ⟨some "9bZkp7q19f0", some "Other"⟩
        sampleRegistry).2.1.field (newDownloadId 1700000000000) "videoId"
      = some (.str "9bZkp7q19f0") := by
  have hne : ("9bZkp7q19f0" : String) ≠ "" := by decide
  refine ⟨?_, ?_, ?_, ?_⟩
  · simp [sampleRegistry, spawnUpdate, Registry.set]
  · simp [download, hne]
  · simp [sampleRegistry, spawnUpdate_field, createJob_field]
  · simp [download, hne, spawnUpdate_field, createJob_field]

/-- C10, amended. The id given to a new job is the text of the clock reading.
When that text is not yet a key, the request adds one record under a new key
and every record that was in the registry stays as it was.  In every case a
request writes only under its own id, the callbacks write only under the id
they captured, and no write removes a key. -/
theorem registry_only_grows (listing : List String) (now proc : Nat)
    (body : DownloadBody) (reg : Registry) :
    (∀ resp reg1 h, download listing now proc body reg = (resp, reg1, some h) →
      h.downloadId = newDownloadId now ∧
      reg1 h.downloadId ≠ none ∧
      (∀ id', id' ≠ h.downloadId → reg1 id' = reg id') ∧
      (reg (newDownloadId now) = none →
        reg h.downloadId = none ∧ ∀ id', reg id' ≠ none → reg1 id' = reg id')) ∧
    (∀ resp reg1, download listing now proc body reg = (resp, reg1, none) →
      reg1 = reg) ∧
    (∀ id', reg id' ≠ none → (download listing now proc body reg).2.1 id' ≠ none) ∧
    (∀ (h : Handlers) (output : String) (id' : String),
      (id' ≠ h.downloadId → onStdoutData h output reg id' = reg id') ∧
      (reg id' ≠ none → onStdoutData h output reg id' ≠ none)) ∧
    (∀ (h : Handlers) (listing' : List String) (code : Option Nat) (id' : String),
      (id' ≠ h.downloadId → onClose h listing' code reg id' = reg id') ∧
      (reg id' ≠ none → onClose h listing' code reg id' ≠ none)) := by
  have hcreate : ∀ resp reg1 h,
      download listing now proc body reg = (resp, reg1, some h) →
      h.downloadId = newDownloadId now ∧ reg1 h.downloadId ≠ none ∧
      (∀ id', id' ≠ h.downloadId → reg1 id' = reg id') := by
    intro resp reg1 h hd
    obtain ⟨_, _, _, hid, hreg⟩ := download_eq_some hd
    refine ⟨hid, ?_, ?_⟩
    · rw [hreg]
      simp [spawnUpdate, Registry.set]
    · intro id' hne
      rw [hreg, spawnUpdate_other _ _ _ hne]
      exact Registry.set_other reg _ hne
  have hcached : ∀ resp reg1,
      download listing now proc body reg = (resp, reg1, none) → reg1 = reg := by
    intro resp reg1 hd
    unfold download at hd
    cases hv : body.videoId with
    | none => rw [hv] at hd; simp at hd; exact hd.2.symm
    | some videoId =>
      rw [hv] at hd
      by_cases he : videoId = ""
      · simp [he] at hd; exact hd.2.symm
      · simp only [if_neg he] at hd
        cases hf : listing.filter (isVideoFile videoId) with
        | cons f fs => rw [hf] at hd; simp at hd; exact hd.2.symm
        | nil => rw [hf] at hd; simp at hd
  have hkeep : ∀ (id : String) (o : Obj) (id' : String),
      reg id' ≠ none → reg.set id o id' ≠ none := by
    intro id o id' hk
    by_cases he : id' = id
    · simp [Registry.set, he]
    · rwa [Registry.set_other reg o he]
  refine ⟨?_, hcached, ?_, ?_, ?_⟩
  · intro resp reg1 h hd
    obtain ⟨hid, hkey, hother⟩ := hcreate resp reg1 h hd
    refine ⟨hid, hkey, hother, ?_⟩
    intro hfresh
    rw [hid]
    refine ⟨hfresh, ?_⟩
    intro id' hk
    apply hother
    rintro rfl
    rw [hid] at hk
    exact hk hfresh
  · intro id' hk
    rcases hres : download listing now proc body reg with ⟨resp, reg1, oh⟩
    cases oh with
    | none => rw [hcached resp reg1 hres]; exact hk
    | some h =>
      obtain ⟨_, hkey, hother⟩ := hcreate resp reg1 h hres
      by_cases he : id' = h.downloadId
      · rw [he]; exact hkey
      · show reg1 id' ≠ none
        rw [hother id' he]; exact hk
  · intro h output id'
    rcases onStdoutData_cases h output reg with ⟨_, he⟩ | ⟨v, _, he⟩
    · rw [he]; exact ⟨fun _ => rfl, id⟩
    · rw [he]
      exact ⟨fun hne => progressUpdate_other _ _ _ hne, hkeep _ _ _⟩
  · intro h listing' code id'
    rcases onClose_cases h listing' code reg with ⟨f, _, _, _, he⟩ | ⟨m, he⟩
    · rw [he]
      exact ⟨fun hne => completedUpdate_other _ _ _ hne, hkeep _ _ _⟩
    · rw [he]
      exact ⟨fun hne => errorUpdate_other _ _ _ hne, hkeep _ _ _⟩

/-- C10, amended, on a second request that arrives one millisecond after the
sample request: its id is new, and the sample job's record stays as it was. -/
theorem registry_only_grows_witness :
    sampleRegistry (newDownloadId 1700000000001) = none ∧
    sampleRegistry (newDownloadId 1700000000000) ≠ none ∧
    (download [] 1700000000001 8 ⟨some "9bZkp7q19f0", some "Other"⟩
        sampleRegistry).2.1 (newDownloadId 1700000000001) ≠ none ∧
    (download [] 1700000000001 8 ⟨some "9bZkp7q19f0", some "Other"⟩
        sampleRegistry).2.1 (newDownloadId 1700000000000)
      = sampleRegistry (newDownloadId 1700000000000) := by
  have hne : ("9bZkp7q19f0" : String) ≠ "" := by decide
  have hid : newDownloadId 1700000000001 ≠ newDownloadId 1700000000000 := by decide
  have hfresh : sampleRegistry (newDownloadId 1700000000001) = none := by
    simp [sampleRegistry, spawnUpdate, createJob, Registry.set, Registry.empty, hid]
  have hkey : sampleRegistry (newDownloadId 1700000000000) ≠ none := by
    simp [sampleRegistry, spawnUpdate, Registry.set]
  have hd : download [] 1700000000001 8 ⟨some "9bZkp7q19f0", some "Other"⟩ sampleRegistry
      = ((download [] 1700000000001 8 ⟨some "9bZkp7q19f0", some "Other"⟩
            sampleRegistry).1,
          (download [] 1700000000001 8 ⟨some "9bZkp7q19f0", some "Other"⟩
            sampleRegistry).2.1,
          some ⟨newDownloadId 1700000000001, "9bZkp7q19f0"⟩) := by
    simp [download, hne]
  obtain ⟨_, hnew, _, hold⟩ :=
    (registry_only_grows [] 1700000000001 8 ⟨some "9bZkp7q19f0", some "Other"⟩
      sampleRegistry).1 _ _ _ hd
  exact ⟨hfresh, hkey, hnew, (hold hfresh).2 _ hkey⟩

/-! ## The client's poll step -/

/-- C11. On a status response the poll step schedules another poll exactly
when the reported status is neither `'completed'` nor `'error'`.  On
`'downloading'` it shows the progress and polls again after a second; on
`'completed'` it schedules the playback of the record's `filePath` and no
poll; on `'error'` it shows the record's error message, hides the progress
element and schedules nothing; on every other status, and on a body without
`status`, it polls again after a second. -/
theorem pollStep_spec (title : String) (status : Obj) :
    ((∃ delay, ClientAction.schedulePoll delay ∈ pollStep title status) ↔
      status "status" ≠ some (.str "completed") ∧
        status "status" ≠ some (.str "error")) ∧
    (status "status" = some (.str "downloading") →
      ∃ progress, pollStep title status
        = [.showProgress progress, .schedulePoll 1000]) ∧
    (status "status" = some (.str "completed") →
      pollStep title status
        = [.showComplete, .schedulePlay 500 (status "filePath") title]) ∧
    (status "status" = some (.str "error") →
      pollStep title status
        = [.logError (status "error"), .showError (status "error"),
            .hideProgress]) ∧
    (status "status" ≠ some (.str "downloading") →
      status "status" ≠ some (.str "completed") →
      status "status" ≠ some (.str "error") →
      pollStep title status = [.schedulePoll 1000]) := by
  have hdc : (Val.str "downloading") ≠ Val.str "completed" := by decide
  have hde : (Val.str "downloading") ≠ Val.str "error" := by decide
  have hce : (Val.str "completed") ≠ Val.str "error" := by decide
  by_cases h1 : status "status" = some (.str "downloading")
  · simp [pollStep, h1, hdc, hde]
  · by_cases h2 : status "status" = some (.str "completed")
    · simp [pollStep, h2, hdc.symm, hce]
    · by_cases h3 : status "status" = some (.str "error")
      · simp [pollStep, h3, hde.symm, hce.symm]
      · simp [pollStep, h1, h2, h3]

/-- C11 on the answer of the status handler for the sample job, which is in
status `'downloading'`: the step shows the progress and polls again. -/
theorem pollStep_spec_witness :
    (downloadStatus sampleHandlers.downloadId sampleRegistry).body "status"
      = some (.str "downloading") ∧
    ∃ progress,
      pollStep "Song" (downloadStatus sampleHandlers.downloadId sampleRegistry).body
        = [.showProgress progress, .schedulePoll 1000] :=
  have hst : (downloadStatus sampleHandlers.downloadId sampleRegistry).body "status"
      = some (.str "downloading") := by
    simp [downloadStatus, sampleHandlers, sampleRegistry, spawnUpdate, Registry.set,
      Obj.omit, Obj.put]
  ⟨hst, (pollStep_spec "Song"
    (downloadStatus sampleHandlers.downloadId sampleRegistry).body).2.1 hst⟩

/-! ## The search merge -/

theorem member_some {v : Json} (k : String) (hv : v ≠ .null) :
    member (some v) k = some (v.prop k) := by
  cases v <;> simp [member] at hv ⊢

theorem videoIdOf_obj {o : JObj} {id : Json} (hid : o "id" = some id)
    (hne : id ≠ .null) : videoIdOf (.obj o) = some (id.prop "videoId") := by
  simp [videoIdOf, member, Json.prop, hid, member_some "videoId" hne]

/-- On records none of which is `null`, the search of line 63 is the first
record whose `id` equals the item's video id. -/
theorem findDetails_eq {video : Json} {vid : Option Json}
    (hvid : videoIdOf video = some vid) (recs : List Json)
    (hrecs : ∀ r ∈ recs, r ≠ .null) :
    findDetails video recs
      = some (recs.find? (fun r => strictEq (r.prop "id") vid)) := by
  induction recs with
  | nil => simp [findDetails]
  | cons r rest ih =>
    have hr : r ≠ .null := hrecs r (List.mem_cons_self r rest)
    have hrest : ∀ x ∈ rest, x ≠ .null :=
      fun x hx => hrecs x (List.mem_cons_of_mem r hx)
    rw [findDetails, member_some "id" hr, hvid]
    by_cases hp : strictEq (r.prop "id") vid = true
    · simp [hp]
    · simp [hp, ih hrest]

theorem lookupDetails_eq {d video : Json} {vid : Option Json} {recs : List Json}
    (hd : WellFormedDetails d recs) (hvid : videoIdOf video = some vid) :
    lookupDetails d video
      = some (recs.find? (fun r => strictEq (r.prop "id") vid)) := by
  obtain ⟨hne, hcase⟩ := hd
  rw [lookupDetails, member_some "items" hne]
  rcases hcase with ⟨hnone | hnull, hrecs⟩ | ⟨harr, hrecs⟩
  · simp [hnone, hrecs]
  · simp [hnull, hrecs]
  · simp [harr, findDetails_eq hvid recs hrecs]

theorem find?_of_first {α : Type} (p : α → Bool) {pre post : List α} {x : α}
    (hpre : ∀ y ∈ pre, p y = false) (hx : p x = true) :
    (pre ++ x :: post).find? p = some x := by
  induction pre with
  | nil => simp [hx]
  | cons y ys ih =>
    have hy : p y = false := hpre y (List.mem_cons_self y ys)
    have hys : ∀ z ∈ ys, p z = false := fun z hz => hpre z (List.mem_cons_of_mem y hz)
    simp [List.find?_cons, hy, ih hys]

/-- What lines 66 and 67 compute is what the specification's words ask of the
field. -/
theorem carriesDetail_detailField (recs : List Json) (vid : Option Json)
    (k : String) :
    CarriesDetail recs vid k
      (some (detailField (recs.find? (fun r => strictEq (r.prop "id") vid)) k)) := by
  constructor
  · intro pre r post hsplit hpre hr
    rw [hsplit, find?_of_first _ hpre hr]
    constructor
    · intro s hs ht
      simp [detailField, hs, ht]
    · intro hfalse
      cases hk : r.prop k with
      | none => simp [detailField, hk]
      | some s => simp [detailField, hk, hfalse s hk]
  · intro hnone
    have hfind : recs.find? (fun r => strictEq (r.prop "id") vid) = none := by
      rw [List.find?_eq_none]
      intro x hx
      simp [hnone x hx]
    rw [hfind]
    rfl

theorem mergeVideo_searchItem {d video : Json} {recs : List Json}
    (hd : WellFormedDetails d recs) (hv : IsSearchItem video) :
    ∃ result, mergeVideo d video = some result ∧ MergedFrom recs video result := by
  obtain ⟨o, id, rfl, hid, hne⟩ := hv
  have hvid := videoIdOf_obj hid hne
  have hmerge : mergeVideo d (.obj o) = some (.obj
      (JObj.put (JObj.put o "statistics"
        (detailField (recs.find? (fun r => strictEq (r.prop "id") (id.prop "videoId")))
          "statistics"))
        "contentDetails"
        (detailField (recs.find? (fun r => strictEq (r.prop "id") (id.prop "videoId")))
          "contentDetails"))) := by
    simp only [mergeVideo, lookupDetails_eq hd hvid, Option.some_bind]
  refine ⟨_, hmerge, o, _, id, rfl, rfl, hid, ?_, ?_, ?_⟩
  · intro k h1 h2
    simp [JObj.put, h1, h2]
  · have hk : ("statistics" : String) ≠ "contentDetails" := by decide
    simp only [JObj.put, if_neg hk, if_true]
    exact carriesDetail_detailField recs _ "statistics"
  · simp only [JObj.put, if_true]
    exact carriesDetail_detailField recs _ "contentDetails"

theorem mergeAll_searchItems {d : Json} {recs : List Json}
    (hd : WellFormedDetails d recs) (items : List Json)
    (hitems : ∀ v ∈ items, IsSearchItem v) :
    ∃ results, mergeAll d items = some results ∧
      List.Forall₂ (MergedFrom recs) items results := by
  induction items with
  | nil => exact ⟨[], rfl, List.Forall₂.nil⟩
  | cons v vs ih =>
    obtain ⟨r, hr, hm⟩ := mergeVideo_searchItem hd (hitems v (List.mem_cons_self v vs))
    obtain ⟨rs, hrs, hms⟩ := ih (fun x hx => hitems x (List.mem_cons_of_mem v hx))
    exact ⟨r :: rs, by simp [mergeAll, hr, hrs], List.Forall₂.cons hm hms⟩

/-- C12, the failing case. With one well-formed search item, a detail answer
whose `items` is the text `abc`, and one whose `items` holds `null`, make line
63 throw, so the request is answered with status 500 and no result.  And a
search item that has a `statistics` field of its own does not keep it: with no
detail record the result holds the empty object there. -/
theorem searchMerge_fails :
    searchMerge [sampleItemA] (.obj (JObj.empty.put "items" (.str "abc"))) = none ∧
    searchMerge [sampleItemA] (.obj (JObj.empty.put "items" (.arr [.null]))) = none ∧
    (sampleItemC.prop "statistics"
        = some (.obj (JObj.empty.put "viewCount" (.str "7"))) ∧
      (searchMerge [sampleItemC] (.obj JObj.empty)).map
          (fun rs => rs.map (fun r => r.prop "statistics"))
        = some [some (.obj JObj.empty)] ∧
      Json.obj (JObj.empty.put "viewCount" (.str "7")) ≠ .obj JObj.empty) := by
  refine ⟨rfl, rfl, rfl, rfl, ?_⟩
  intro heq
  have hfield := congrFun (Json.obj.inj heq) "viewCount"
  simp [JObj.put, JObj.empty] at hfield

/-- C12, amended. For search items that are objects with an `id` other than
`null`, and a detail answer that is not `null` and whose `items` is absent,
`null` or an array of records none of which is `null`, the merge succeeds
with exactly one result per search item, in the same order.  Each result
keeps every field of its search item other than `statistics` and
`contentDetails`, and takes each of these two from the first detail record
whose `id` equals the item's video id, when that record holds a value for it
that counts as true; the field is the empty object when no record matches,
when the detail answer has no items, and when the matching record holds no
such value. -/
theorem searchMerge_spec (items : List Json) (d : Json) (recs : List Json)
    (hitems : ∀ v ∈ items, IsSearchItem v) (hd : WellFormedDetails d recs) :
    ∃ results, searchMerge items d = some results ∧
      results.length = items.length ∧
      List.Forall₂ (MergedFrom recs) items results := by
  obtain ⟨results, hres, hall⟩ := mergeAll_searchItems hd items hitems
  have hids : items.all (fun item => (videoIdOf item).isSome) = true := by
    rw [List.all_eq_true]
    intro v hv
    obtain ⟨o, id, rfl, hid, hne⟩ := hitems v hv
    simp [videoIdOf_obj hid hne]
  exact ⟨results, by rw [searchMerge, if_pos hids, hres], hall.length_eq.symm, hall⟩

theorem sample_items_wf : ∀ v ∈ [sampleItemA, sampleItemB], IsSearchItem v := by
  intro v hv
  simp only [List.mem_cons, List.mem_singleton, List.not_mem_nil, or_false] at hv
  rcases hv with rfl | rfl
  · exact ⟨_, .obj (JObj.empty.put "videoId" (.str "dQw4w9WgXcQ")), rfl,
      by simp [JObj.put], by simp⟩
  · exact ⟨_, .obj (JObj.empty.put "videoId" (.str "9bZkp7q19f0")), rfl,
      by simp [JObj.put], by simp⟩

theorem sample_details_wf : WellFormedDetails sampleDetails [sampleRecord] := by
  refine ⟨by simp [sampleDetails], Or.inr ⟨by simp [sampleDetails, Json.prop, JObj.put], ?_⟩⟩
  intro r hr
  rw [List.mem_singleton] at hr
  subst hr
  simp [sampleRecord]

/-- The merge on the sample search: the first result carries the record's
statistics and an empty `contentDetails`, the second two empty objects. -/
theorem sample_searchMerge :
    searchMerge [sampleItemA, sampleItemB] sampleDetails = some
      [.obj ((((JObj.empty.put "id"
          (.obj (JObj.empty.put "videoId" (.str "dQw4w9WgXcQ")))).put "snippet"
          (.obj (JObj.empty.put "title" (.str "Song")))).put "statistics"
          (.obj (JObj.empty.put "viewCount" (.str "10")))).put "contentDetails"
          (.obj JObj.empty)),
        .obj (((JObj.empty.put "id"
          (.obj (JObj.empty.put "videoId" (.str "9bZkp7q19f0")))).put "statistics"
          (.obj JObj.empty)).put "contentDetails" (.obj JObj.empty))] := by
  rfl

/-- C12 on the sample search. -/
theorem searchMerge_spec_witness :
    (∀ v ∈ [sampleItemA, sampleItemB], IsSearchItem v) ∧
    WellFormedDetails sampleDetails [sampleRecord] ∧
    ∃ results, searchMerge [sampleItemA, sampleItemB] sampleDetails = some results ∧
      results.length = [sampleItemA, sampleItemB].length ∧
      List.Forall₂ (MergedFrom [sampleRecord]) [sampleItemA, sampleItemB] results :=
  ⟨sample_items_wf, sample_details_wf,
    searchMerge_spec [sampleItemA, sampleItemB] sampleDetails [sampleRecord]
      sample_items_wf sample_details_wf⟩

end Youtube
